import Mathlib

/-!
Verification of the HTCP protocol implementation (server `htcp/`, client
`htcp_client/`) against its specification.  Python values are shallowly
embedded: `bytes` as `List Nat` with entries below 256, `str` as `List Nat`
of Unicode code points, exceptions as `Except`/`Option`.
-/

namespace HTCP

/-- Python `bytes`: every entry is a byte value. -/
def isBytes (l : List Nat) : Prop := ∀ b ∈ l, b < 256

instance (l : List Nat) : Decidable (isBytes l) :=
  decidable_of_iff (∀ b ∈ l, b < 256) Iff.rfl

/-- Python `str`: every entry is a Unicode scalar value
(below 0x110000 and not a surrogate). -/
def isStr (s : List Nat) : Prop :=
  ∀ c ∈ s, c < 0x110000 ∧ ¬(0xD800 ≤ c ∧ c < 0xE000)

instance (s : List Nat) : Decidable (isStr s) :=
  decidable_of_iff (∀ c ∈ s, c < 0x110000 ∧ ¬(0xD800 ≤ c ∧ c < 0xE000)) Iff.rfl

/-- Code points of a Lean string literal, used to write ASCII constants. -/
def strCodes (s : String) : List Nat := s.toList.map Char.toNat

/-- Embeds Python `struct.pack(">I", n)`: four big-endian bytes.
The caller is responsible for `n < 2^32` (Python raises `struct.error`
otherwise; the embeddings of callers check this bound explicitly). -/
def packBE32 (n : Nat) : List Nat :=
  [n / 2 ^ 24 % 256, n / 2 ^ 16 % 256, n / 2 ^ 8 % 256, n % 256]

/-- Embeds Python `struct.unpack(">I", l)[0]` for a 4-byte list. -/
def unpackBE32 (l : List Nat) : Nat :=
  match l with
  | [b0, b1, b2, b3] => b0 * 2 ^ 24 + b1 * 2 ^ 16 + b2 * 2 ^ 8 + b3
  | _ => 0

theorem unpackBE32_packBE32 (n : Nat) (h : n < 2 ^ 32) :
    unpackBE32 (packBE32 n) = n := by
  simp only [packBE32, unpackBE32]
  omega

theorem packBE32_length (n : Nat) : (packBE32 n).length = 4 := rfl

/-! ### Base64 (standard alphabet with padding)

Embeds `base64.b64encode` / `base64.b64decode` as used by
`Package.to_json` / `Package.from_bytes` in `htcp/backend/proto.py`.
The decoder is the strict RFC 4648 decoder; the codec round-trip below only
evaluates it on outputs of the encoder, where the two agree. -/

/-- Character (ASCII code) of a Base64 sextet value. -/
def b64char (v : Nat) : Nat :=
  if v < 26 then 65 + v
  else if v < 52 then 97 + (v - 26)
  else if v < 62 then 48 + (v - 52)
  else if v = 62 then 43
  else 47

/-- Sextet value of a Base64 character, `none` off the alphabet. -/
def b64val (c : Nat) : Option Nat :=
  if 65 ≤ c ∧ c ≤ 90 then some (c - 65)
  else if 97 ≤ c ∧ c ≤ 122 then some (c - 97 + 26)
  else if 48 ≤ c ∧ c ≤ 57 then some (c - 48 + 52)
  else if c = 43 then some 62
  else if c = 47 then some 63
  else none

/-- Base64-encode a byte list to a list of ASCII codes (61 is the pad `=`). -/
def b64encode : List Nat → List Nat
  | [] => []
  | [a] => [b64char (a / 4), b64char (a % 4 * 16), 61, 61]
  | [a, b] => [b64char (a / 4), b64char (a % 4 * 16 + b / 16), b64char (b % 16 * 4), 61]
  | a :: b :: c :: rest =>
      b64char (a / 4) :: b64char (a % 4 * 16 + b / 16) ::
      b64char (b % 16 * 4 + c / 64) :: b64char (c % 64) :: b64encode rest

/-- Base64-decode a list of ASCII codes back to bytes. -/
def b64decode : List Nat → Option (List Nat)
  | [] => some []
  | a :: b :: c :: d :: rest =>
      match b64val a, b64val b with
      | some va, some vb =>
        if c = 61 ∧ d = 61 then
          if rest = [] then some [va * 4 + vb / 16] else none
        else if d = 61 then
          match b64val c with
          | some vc =>
              if rest = [] then some [va * 4 + vb / 16, vb % 16 * 16 + vc / 4] else none
          | none => none
        else
          match b64val c, b64val d with
          | some vc, some vd =>
              (b64decode rest).map
                (fun tail => (va * 4 + vb / 16) :: (vb % 16 * 16 + vc / 4) ::
                  (vc % 4 * 64 + vd) :: tail)
          | _, _ => none
      | _, _ => none
  | _ => none

theorem b64val_b64char : ∀ v < 64, b64val (b64char v) = some v := by decide

theorem b64char_ne_pad : ∀ v < 64, b64char v ≠ 61 := by decide

theorem b64decode_b64encode : ∀ l : List Nat, isBytes l → b64decode (b64encode l) = some l := by
  intro l hl
  induction l using b64encode.induct with
  | case1 => rfl
  | case2 a =>
      have ha : a < 256 := hl a (by simp)
      have h1 := b64val_b64char (a / 4) (by omega)
      have h2 := b64val_b64char (a % 4 * 16) (by omega)
      simp [b64encode, b64decode, h1, h2]
      omega
  | case3 a b =>
      have ha : a < 256 := hl a (by simp)
      have hb : b < 256 := hl b (by simp)
      have h1 := b64val_b64char (a / 4) (by omega)
      have h2 := b64val_b64char (a % 4 * 16 + b / 16) (by omega)
      have h3 := b64val_b64char (b % 16 * 4) (by omega)
      have hne := b64char_ne_pad (b % 16 * 4) (by omega)
      simp [b64encode, b64decode, h1, h2, h3, hne]
      omega
  | case4 a b c rest ih =>
      have ha : a < 256 := hl a (by simp)
      have hb : b < 256 := hl b (by simp)
      have hc : c < 256 := hl c (by simp)
      have hrest : isBytes rest := fun x hx => hl x (by simp [hx])
      have h1 := b64val_b64char (a / 4) (by omega)
      have h2 := b64val_b64char (a % 4 * 16 + b / 16) (by omega)
      have h3 := b64val_b64char (b % 16 * 4 + c / 64) (by omega)
      have h4 := b64val_b64char (c % 64) (by omega)
      have hne3 := b64char_ne_pad (b % 16 * 4 + c / 64) (by omega)
      have hne4 := b64char_ne_pad (c % 64) (by omega)
      simp [b64encode, b64decode, h1, h2, h3, h4, hne3, hne4, ih hrest]
      omega

/-! ### UTF-8

Embeds Python `str.encode("utf-8")` and `bytes.decode("utf-8")` as used by
`Package.to_bytes` / `Package.from_bytes`.  The decoder is the strict one
(rejects bad continuation bytes, overlong forms, surrogates, out-of-range
code points), matching CPython's default `utf-8` codec. -/

/-- UTF-8 bytes of one code point. -/
def utf8EncodeChar (c : Nat) : List Nat :=
  if c < 0x80 then [c]
  else if c < 0x800 then [0xC0 + c / 64, 0x80 + c % 64]
  else if c < 0x10000 then [0xE0 + c / 4096, 0x80 + c / 64 % 64, 0x80 + c % 64]
  else [0xF0 + c / 262144, 0x80 + c / 4096 % 64, 0x80 + c / 64 % 64, 0x80 + c % 64]

/-- UTF-8 encoding of a code-point list. -/
def utf8Encode (s : List Nat) : List Nat := (s.map utf8EncodeChar).flatten

/-- A UTF-8 continuation byte. -/
def isCont (b : Nat) : Bool := decide (0x80 ≤ b ∧ b < 0xC0)

/-- Decode the tail of a 2-byte sequence with lead byte b. -/
def utf8DecTail1 (b : Nat) : List Nat → Option (Nat × List Nat)
  | b2 :: r => if isCont b2 then some ((b - 0xC0) * 64 + (b2 - 0x80), r) else none
  | _ => none

/-- Decode the tail of a 3-byte sequence with lead byte b. -/
def utf8DecTail2 (b : Nat) : List Nat → Option (Nat × List Nat)
  | b2 :: b3 :: r =>
      let c := (b - 0xE0) * 4096 + (b2 - 0x80) * 64 + (b3 - 0x80)
      if isCont b2 ∧ isCont b3 ∧ 0x800 ≤ c ∧ ¬(0xD800 ≤ c ∧ c < 0xE000) then
        some (c, r)
      else none
  | _ => none

/-- Decode the tail of a 4-byte sequence with lead byte b. -/
def utf8DecTail3 (b : Nat) : List Nat → Option (Nat × List Nat)
  | b2 :: b3 :: b4 :: r =>
      let c := (b - 0xF0) * 262144 + (b2 - 0x80) * 4096 + (b3 - 0x80) * 64 + (b4 - 0x80)
      if isCont b2 ∧ isCont b3 ∧ isCont b4 ∧ 0x10000 ≤ c ∧ c < 0x110000 then
        some (c, r)
      else none
  | _ => none

/-- Decode one code point off the front of a byte list. -/
def utf8DecOne : List Nat → Option (Nat × List Nat)
  | [] => none
  | b :: rest =>
      if b < 0x80 then some (b, rest)
      else if b < 0xC2 then none
      else if b < 0xE0 then utf8DecTail1 b rest
      else if b < 0xF0 then utf8DecTail2 b rest
      else if b < 0xF5 then utf8DecTail3 b rest
      else none

/-- Fuel-driven UTF-8 decoding loop; each decoded character consumes at least
one input byte, so fuel equal to the input length never runs out. -/
def utf8DecodeF : Nat → List Nat → Option (List Nat)
  | _, [] => some []
  | 0, _ :: _ => none
  | fuel + 1, b :: rest =>
      match utf8DecOne (b :: rest) with
      | none => none
      | some (c, r) => (utf8DecodeF fuel r).map (c :: ·)

/-- Strict UTF-8 decoding back to code points. -/
def utf8Decode (l : List Nat) : Option (List Nat) := utf8DecodeF l.length l

/-- All-ASCII strings are fixed by UTF-8 encoding. -/
theorem utf8Encode_ascii (s : List Nat) (h : ∀ c ∈ s, c < 0x80) :
    utf8Encode s = s := by
  induction s with
  | nil => rfl
  | cons c s ih =>
      have hc : c < 0x80 := h c (by simp)
      simp only [utf8Encode, List.map_cons, List.flatten_cons] at *
      rw [utf8EncodeChar, if_pos hc]
      simp [ih (fun x hx => h x (by simp [hx]))]

theorem utf8DecodeF_ascii (s : List Nat) : ∀ fuel, s.length ≤ fuel →
    (∀ c ∈ s, c < 0x80) → utf8DecodeF fuel s = some s := by
  induction s with
  | nil => intro fuel _ _; cases fuel <;> rfl
  | cons c s ih =>
      intro fuel hfuel h
      have hc : c < 0x80 := h c (by simp)
      match fuel with
      | 0 => simp at hfuel
      | f + 1 =>
          rw [utf8DecodeF, utf8DecOne, if_pos hc]
          show (utf8DecodeF f s).map (c :: ·) = some (c :: s)
          rw [ih f (by simpa using hfuel) (fun x hx => h x (by simp [hx]))]
          rfl

/-- UTF-8 decoding inverts encoding on all-ASCII strings (the case the
JSON payloads fall in, since `json.dumps` escapes all non-ASCII). -/
theorem utf8Decode_utf8Encode_ascii (s : List Nat) (h : ∀ c ∈ s, c < 0x80) :
    utf8Decode (utf8Encode s) = some s := by
  rw [utf8Encode_ascii s h, utf8Decode]
  exact utf8DecodeF_ascii s s.length le_rfl h

/-! ### JSON (the fragment the repository serializes)

`Package.to_json` and `create_error_package` only ever serialize flat,
string-keyed objects whose values are strings, ints or `None`; `from_bytes`
only reads top-level fields of such an object.  The embedding models
`json.dumps` (default options: `ensure_ascii=True`, separators `", "` and
`": "`) and `json.loads` restricted to that fragment. -/

/-- The JSON values the repository's payloads contain. -/
inductive JAtom where
  | jnull : JAtom
  | jstr (s : List Nat) : JAtom
  | jint (n : Int) : JAtom
deriving DecidableEq

/-- A flat JSON object: key/value items in insertion order. -/
abbrev JFields := List (List Nat × JAtom)

/-- Lowercase hex digit character, as Python "%04x" formatting emits. -/
def hexChar (v : Nat) : Nat := if v < 10 then 48 + v else 87 + v

/-- Four lowercase hex digits of a value below 0x10000. -/
def hex4 (c : Nat) : List Nat :=
  [hexChar (c / 4096 % 16), hexChar (c / 256 % 16), hexChar (c / 16 % 16), hexChar (c % 16)]

/-- Escape one character as json.encoder's ensure_ascii encoder does:
shortcut escapes, printable ASCII verbatim, everything else as \uXXXX
(a surrogate pair above 0xFFFF). -/
def escChar (c : Nat) : List Nat :=
  if c = 34 then [92, 34]
  else if c = 92 then [92, 92]
  else if c = 8 then [92, 98]
  else if c = 9 then [92, 116]
  else if c = 10 then [92, 110]
  else if c = 12 then [92, 102]
  else if c = 13 then [92, 114]
  else if 32 ≤ c ∧ c ≤ 126 then [c]
  else if c < 0x10000 then 92 :: 117 :: hex4 c
  else
    (92 :: 117 :: hex4 (0xD800 + (c - 0x10000) / 1024)) ++
    (92 :: 117 :: hex4 (0xDC00 + (c - 0x10000) % 1024))

/-- Escaped body of a JSON string literal. -/
def escString (s : List Nat) : List Nat := (s.map escChar).flatten

/-- Serialized JSON string: quote, escaped body, quote. -/
def dumpStr (s : List Nat) : List Nat := 34 :: (escString s ++ [34])

/-- Decimal digit characters of a natural number, fuel-driven so that the
definition evaluates by kernel reduction; the division by ten shrinks the
value at least as fast as the fuel. -/
def natDigitsF : Nat → Nat → List Nat
  | 0, n => [48 + n % 10]
  | fuel + 1, n => if n < 10 then [48 + n] else natDigitsF fuel (n / 10) ++ [48 + n % 10]

/-- Decimal digit characters of a natural number (Python repr). -/
def natDigits (n : Nat) : List Nat := natDigitsF n n

/-- Serialized Python int (repr), as json.dumps emits. -/
def dumpInt (n : Int) : List Nat :=
  if n < 0 then 45 :: natDigits n.natAbs else natDigits n.natAbs

/-- Serialized JSON atom. -/
def dumpAtom : JAtom → List Nat
  | .jnull => [110, 117, 108, 108]
  | .jstr s => dumpStr s
  | .jint n => dumpInt n

/-- Serialized object items, joined by ", ", each key and value joined
by ": " (json.dumps default separators). -/
def dumpItems : JFields → List Nat
  | [] => []
  | [(k, v)] => dumpStr k ++ (58 :: 32 :: dumpAtom v)
  | (k, v) :: rest => dumpStr k ++ (58 :: 32 :: dumpAtom v) ++ (44 :: 32 :: dumpItems rest)

/-- Embeds json.dumps on a flat string-keyed object. -/
def jsonDumps (fields : JFields) : List Nat := 123 :: (dumpItems fields ++ [125])

/-- JSON whitespace. -/
def isWs (c : Nat) : Bool := c = 32 ∨ c = 9 ∨ c = 10 ∨ c = 13

/-- Skip whitespace, as json's scanner does between tokens. -/
def skipWs (l : List Nat) : List Nat := l.dropWhile isWs

/-- Value of a hex digit character (either case accepted, as int(_, 16)). -/
def hexVal (c : Nat) : Option Nat :=
  if 48 ≤ c ∧ c ≤ 57 then some (c - 48)
  else if 97 ≤ c ∧ c ≤ 102 then some (c - 97 + 10)
  else if 65 ≤ c ∧ c ≤ 70 then some (c - 65 + 10)
  else none

/-- Parse exactly four hex digits (json's _decode_uXXXX). -/
def hex4Val : List Nat → Option (Nat × List Nat)
  | h1 :: h2 :: h3 :: h4 :: r =>
      match hexVal h1, hexVal h2, hexVal h3, hexVal h4 with
      | some v1, some v2, some v3, some v4 =>
          some (v1 * 4096 + v2 * 256 + v3 * 16 + v4, r)
      | _, _, _, _ => none
  | _ => none

/-- After a high surrogate \uXXXX, py_scanstring combines a following
low-surrogate escape into one code point, else keeps the lone value. -/
def unescPair (u : Nat) (l : List Nat) : Option (Nat × List Nat) :=
  match l with
  | c1 :: c2 :: r2 =>
      if c1 = 92 ∧ c2 = 117 then
        match hex4Val r2 with
        | none => none
        | some (u2, r3) =>
            if 0xDC00 ≤ u2 ∧ u2 ≤ 0xDFFF then
              some (0x10000 + (u - 0xD800) * 1024 + (u2 - 0xDC00), r3)
            else some (u, l)
      else some (u, l)
  | _ => some (u, l)

/-- Handle a \uXXXX escape body. -/
def unescU (l : List Nat) : Option (Nat × List Nat) :=
  match hex4Val l with
  | none => none
  | some (u, r2) =>
      if 0xD800 ≤ u ∧ u ≤ 0xDBFF then unescPair u r2 else some (u, r2)

/-- Handle one backslash escape (input starts after the backslash),
per py_scanstring's BACKSLASH table. -/
def unescOne : List Nat → Option (Nat × List Nat)
  | [] => none
  | e :: r =>
      if e = 34 then some (34, r)
      else if e = 92 then some (92, r)
      else if e = 47 then some (47, r)
      else if e = 98 then some (8, r)
      else if e = 102 then some (12, r)
      else if e = 110 then some (10, r)
      else if e = 114 then some (13, r)
      else if e = 116 then some (9, r)
      else if e = 117 then unescU r
      else none

/-- Body of a JSON string after the opening quote (strict py_scanstring:
closing quote ends it, escapes handled, raw control characters rejected).
Each step consumes at least one input character, so fuel equal to the
input length never runs out. -/
def parseStrBody : Nat → List Nat → Option (List Nat × List Nat)
  | _, [] => none
  | 0, _ :: _ => none
  | fuel + 1, c :: r =>
      if c = 34 then some ([], r)
      else if c = 92 then
        match unescOne r with
        | none => none
        | some (u, r2) => (parseStrBody fuel r2).map (fun p => (u :: p.1, p.2))
      else if c < 32 then none
      else (parseStrBody fuel r).map (fun p => (c :: p.1, p.2))

/-- A decimal digit character. -/
def isDigit (c : Nat) : Bool := decide (48 ≤ c ∧ c ≤ 57)

/-- Numeric value of a digit string. -/
def digitsVal (l : List Nat) : Nat := l.foldl (fun a c => a * 10 + (c - 48)) 0

/-- Parse a maximal nonempty run of digits. -/
def parseNat (l : List Nat) : Option (Nat × List Nat) :=
  if l.takeWhile isDigit = [] then none
  else some (digitsVal (l.takeWhile isDigit), l.dropWhile isDigit)

/-- Parse a JSON integer (optional minus sign, digit run). -/
def parseInt : List Nat → Option (Int × List Nat)
  | [] => none
  | c :: r =>
      if c = 45 then (parseNat r).map (fun p => (-(p.1 : Int), p.2))
      else (parseNat (c :: r)).map (fun p => ((p.1 : Int), p.2))

/-- Expect the tail "ull" of the literal null. -/
def parseNullTail : List Nat → Option (JAtom × List Nat)
  | 117 :: 108 :: 108 :: r => some (.jnull, r)
  | _ => none

/-- The string scanner as invoked by the object scanner: the fuel is the
input length, which the step-wise consumption argument above makes
sufficient for every input. -/
def parseStr (l : List Nat) : Option (List Nat × List Nat) := parseStrBody l.length l

/-- Parse one atom of the fragment: string, null, or integer. -/
def parseAtom (l : List Nat) : Option (JAtom × List Nat) :=
  match l with
  | [] => none
  | c :: r =>
      if c = 34 then (parseStr r).map (fun p => (.jstr p.1, p.2))
      else if c = 110 then parseNullTail r
      else (parseInt (c :: r)).map (fun p => (.jint p.1, p.2))

/-- Parse one `"key": value` item, with the whitespace skips json's
object scanner performs. -/
def parseKV (l : List Nat) : Option ((List Nat × JAtom) × List Nat) :=
  match skipWs l with
  | [] => none
  | c :: r =>
      if c = 34 then
        match parseStr r with
        | none => none
        | some (k, r2) =>
            match skipWs r2 with
            | [] => none
            | c2 :: r3 =>
                if c2 = 58 then
                  match parseAtom (skipWs r3) with
                  | none => none
                  | some (v, r4) => some ((k, v), r4)
                else none
      else none

/-- Parse the items of a nonempty object, each followed by "," (continue)
or "}" (finish).  Fuel bounds the number of items; every item consumes
input, so fuel beyond the input length never runs out. -/
def parseItems : Nat → List Nat → Option (JFields × List Nat)
  | 0, _ => none
  | fuel + 1, l =>
      match parseKV l with
      | none => none
      | some (kv, r) =>
          match skipWs r with
          | [] => none
          | c :: r2 =>
              if c = 44 then (parseItems fuel r2).map (fun p => (kv :: p.1, p.2))
              else if c = 125 then some ([kv], r2)
              else none

/-- The object-items scanner as json.loads invokes it; again the fuel is
derived from the input and always sufficient. -/
def parseObjItems (l : List Nat) : Option (JFields × List Nat) :=
  parseItems (l.length + 1) l

/-- Embeds json.loads restricted to the fragment: a single flat object,
nothing but whitespace after it. -/
def jsonLoads (s : List Nat) : Option JFields :=
  match skipWs s with
  | [] => none
  | c :: r =>
      if c = 123 then
        match skipWs r with
        | [] => none
        | c2 :: r2 =>
            if c2 = 125 then if skipWs r2 = [] then some [] else none
            else
              match parseObjItems r with
              | none => none
              | some (fields, rest) => if skipWs rest = [] then some fields else none
      else none

/-- Python dict lookup on parsed items: the last binding of a key wins. -/
def dictGet (fields : JFields) (k : List Nat) : Option JAtom :=
  fields.foldl (fun acc kv => if kv.1 = k then some kv.2 else acc) none

/-! ### JSON round-trip lemmas -/

theorem hexVal_hexChar : ∀ v < 16, hexVal (hexChar v) = some v := by decide

theorem hexChar_lt : ∀ v < 16, hexChar v < 128 := by decide

theorem hex4Val_hex4 (c : Nat) (h : c < 0x10000) (t : List Nat) :
    hex4Val (hex4 c ++ t) = some (c, t) := by
  simp only [hex4, List.cons_append, List.nil_append, hex4Val]
  rw [hexVal_hexChar _ (by omega), hexVal_hexChar _ (by omega),
    hexVal_hexChar _ (by omega), hexVal_hexChar _ (by omega)]
  show some _ = some _
  congr 1
  congr 1
  omega

theorem hex4_lt (c : Nat) : ∀ x ∈ hex4 c, x < 128 := by
  intro x hx
  simp [hex4] at hx
  rcases hx with rfl | rfl | rfl | rfl <;> exact hexChar_lt _ (by omega)

theorem escChar_ascii (c : Nat) : ∀ x ∈ escChar c, x < 128 := by
  intro x hx
  rw [escChar] at hx
  split_ifs at hx with h1 h2 h3 h4 h5 h6 h7 h8 h9
  · simp at hx; rcases hx with rfl | rfl <;> norm_num
  · simp at hx; rcases hx with rfl | rfl <;> norm_num
  · simp at hx; rcases hx with rfl | rfl <;> norm_num
  · simp at hx; rcases hx with rfl | rfl <;> norm_num
  · simp at hx; rcases hx with rfl | rfl <;> norm_num
  · simp at hx; rcases hx with rfl | rfl <;> norm_num
  · simp at hx; rcases hx with rfl | rfl <;> norm_num
  · simp at hx; omega
  · simp only [List.mem_cons] at hx
    rcases hx with rfl | rfl | h
    · omega
    · omega
    · exact hex4_lt _ _ h
  · rw [List.mem_append] at hx
    rcases hx with h | h <;>
      · simp only [List.mem_cons] at h
        rcases h with rfl | rfl | h
        · omega
        · omega
        · exact hex4_lt _ _ h

theorem escChar_length_pos (c : Nat) : 1 ≤ (escChar c).length := by
  rw [escChar]
  split_ifs <;> simp

theorem escString_length (s : List Nat) : s.length ≤ (escString s).length := by
  induction s with
  | nil => simp [escString]
  | cons c s ih =>
      simp only [escString, List.map_cons, List.flatten_cons, List.length_append,
        List.length_cons] at *
      have := escChar_length_pos c
      omega

theorem parseStrBody_escStep (fuel u : Nat) (r r2 : List Nat)
    (h : unescOne r = some (u, r2)) :
    parseStrBody (fuel + 1) (92 :: r) =
      (parseStrBody fuel r2).map (fun p => (u :: p.1, p.2)) := by
  rw [parseStrBody, if_neg (by norm_num), if_pos rfl, h]

theorem parseStrBody_litStep (fuel c : Nat) (r : List Nat)
    (h34 : c ≠ 34) (h92 : c ≠ 92) (h32 : ¬c < 32) :
    parseStrBody (fuel + 1) (c :: r) =
      (parseStrBody fuel r).map (fun p => (c :: p.1, p.2)) := by
  rw [parseStrBody, if_neg h34, if_neg h92, if_neg h32]

theorem unescOne_u (r : List Nat) : unescOne (117 :: r) = unescU r := by
  simp [unescOne]

theorem unescPair_low (u u2 : Nat) (h1 : 0xDC00 ≤ u2) (h2 : u2 ≤ 0xDFFF) (t : List Nat) :
    unescPair u (92 :: 117 :: (hex4 u2 ++ t)) =
      some (0x10000 + (u - 0xD800) * 1024 + (u2 - 0xDC00), t) := by
  have h4b := hex4Val_hex4 u2 (by omega) t
  simp [unescPair, h4b, h1, h2]

theorem unescU_pair (u u2 : Nat) (hu1 : 0xD800 ≤ u) (hu2 : u ≤ 0xDBFF)
    (h1 : 0xDC00 ≤ u2) (h2 : u2 ≤ 0xDFFF) (t : List Nat) :
    unescU (hex4 u ++ (92 :: 117 :: (hex4 u2 ++ t))) =
      some (0x10000 + (u - 0xD800) * 1024 + (u2 - 0xDC00), t) := by
  have h4a := hex4Val_hex4 u (by omega) (92 :: 117 :: (hex4 u2 ++ t))
  rw [unescU, h4a]
  show (if 0xD800 ≤ u ∧ u ≤ 0xDBFF then unescPair u (92 :: 117 :: (hex4 u2 ++ t))
    else some (u, 92 :: 117 :: (hex4 u2 ++ t))) = _
  rw [if_pos ⟨hu1, hu2⟩]
  exact unescPair_low u u2 h1 h2 t

theorem unescU_bmp (u : Nat) (hu : u < 0x10000) (hne : ¬(0xD800 ≤ u ∧ u ≤ 0xDBFF))
    (t : List Nat) : unescU (hex4 u ++ t) = some (u, t) := by
  rw [unescU, hex4Val_hex4 u hu t]
  show (if 0xD800 ≤ u ∧ u ≤ 0xDBFF then unescPair u t else some (u, t)) = _
  rw [if_neg hne]

theorem parseStrBody_escChar (c : Nat) (hlt : c < 0x110000)
    (hsur : ¬(0xD800 ≤ c ∧ c < 0xE000)) (fuel : Nat) (t : List Nat) :
    parseStrBody (fuel + 1) (escChar c ++ t) =
      (parseStrBody fuel t).map (fun p => (c :: p.1, p.2)) := by
  rw [escChar]
  split_ifs with h1 h2 h3 h4 h5 h6 h7 h8 h9
  · subst h1
    exact parseStrBody_escStep fuel 34 (34 :: t) t (by simp [unescOne])
  · subst h2
    exact parseStrBody_escStep fuel 92 (92 :: t) t (by simp [unescOne])
  · subst h3
    exact parseStrBody_escStep fuel 8 (98 :: t) t (by simp [unescOne])
  · subst h4
    exact parseStrBody_escStep fuel 9 (116 :: t) t (by simp [unescOne])
  · subst h5
    exact parseStrBody_escStep fuel 10 (110 :: t) t (by simp [unescOne])
  · subst h6
    exact parseStrBody_escStep fuel 12 (102 :: t) t (by simp [unescOne])
  · subst h7
    exact parseStrBody_escStep fuel 13 (114 :: t) t (by simp [unescOne])
  · -- printable ASCII, emitted verbatim
    simp only [List.cons_append, List.nil_append]
    exact parseStrBody_litStep fuel c t h1 h2 (by omega)
  · -- single \uXXXX escape
    simp only [List.cons_append]
    rw [parseStrBody_escStep fuel c (117 :: (hex4 c ++ t)) t
      ((unescOne_u _).trans (unescU_bmp c h9 (by omega) t))]
  · -- surrogate pair
    simp only [List.cons_append, List.append_assoc]
    rw [parseStrBody_escStep fuel
      (0x10000 + (0xD800 + (c - 0x10000) / 1024 - 0xD800) * 1024 +
        (0xDC00 + (c - 0x10000) % 1024 - 0xDC00))
      (117 :: (hex4 (0xD800 + (c - 0x10000) / 1024) ++
        (92 :: 117 :: (hex4 (0xDC00 + (c - 0x10000) % 1024) ++ t)))) t
      ((unescOne_u _).trans (unescU_pair _ _ (by omega) (by omega) (by omega) (by omega) t))]
    have hcomb : 0x10000 + (0xD800 + (c - 0x10000) / 1024 - 0xD800) * 1024 +
        (0xDC00 + (c - 0x10000) % 1024 - 0xDC00) = c := by omega
    rw [hcomb]

theorem parseStrBody_escString (s : List Nat) (hs : isStr s) :
    ∀ fuel t, s.length + 1 ≤ fuel →
      parseStrBody fuel (escString s ++ (34 :: t)) = some (s, t) := by
  induction s with
  | nil =>
      intro fuel t hfuel
      match fuel with
      | f + 1 => simp [escString, parseStrBody]
  | cons c s ih =>
      intro fuel t hfuel
      have hc := hs c (by simp)
      match fuel with
      | f + 1 =>
          have : escString (c :: s) ++ (34 :: t) =
              escChar c ++ (escString s ++ (34 :: t)) := by
            simp [escString]
          rw [this, parseStrBody_escChar c hc.1 hc.2,
            ih (fun x hx => hs x (by simp [hx])) f t (by simpa using hfuel)]
          rfl

theorem natDigitsF_digits : ∀ fuel n, ∀ c ∈ natDigitsF fuel n, 48 ≤ c ∧ c ≤ 57 := by
  intro fuel
  induction fuel with
  | zero =>
      intro n c hc
      simp [natDigitsF] at hc
      omega
  | succ f ih =>
      intro n c hc
      rw [natDigitsF] at hc
      split_ifs at hc with h
      · simp at hc
        omega
      · rcases List.mem_append.mp hc with hm | hm
        · exact ih (n / 10) c hm
        · simp at hm
          omega

theorem natDigits_digits : ∀ n, ∀ c ∈ natDigits n, 48 ≤ c ∧ c ≤ 57 :=
  fun n => natDigitsF_digits n n

theorem natDigitsF_ne_nil (fuel n : Nat) : natDigitsF fuel n ≠ [] := by
  match fuel with
  | 0 => simp [natDigitsF]
  | f + 1 =>
      rw [natDigitsF]
      split_ifs <;> simp

theorem natDigits_ne_nil (n : Nat) : natDigits n ≠ [] := natDigitsF_ne_nil n n

theorem digitsVal_natDigitsF : ∀ fuel n, n ≤ fuel → digitsVal (natDigitsF fuel n) = n := by
  intro fuel
  induction fuel with
  | zero =>
      intro n hn
      simp only [natDigitsF, digitsVal, List.foldl_cons, List.foldl_nil]
      omega
  | succ f ih =>
      intro n hn
      rw [natDigitsF]
      split_ifs with h
      · simp [digitsVal]
      · have := ih (n / 10) (by omega)
        simp only [digitsVal, List.foldl_append, List.foldl_cons, List.foldl_nil] at *
        rw [this]
        omega

theorem digitsVal_natDigits : ∀ n, digitsVal (natDigits n) = n :=
  fun n => digitsVal_natDigitsF n n le_rfl

theorem takeWhile_all_append (p : Nat → Bool) (xs t : List Nat)
    (hall : ∀ x ∈ xs, p x = true) (ht : ∀ c r, t = c :: r → p c = false) :
    (xs ++ t).takeWhile p = xs ∧ (xs ++ t).dropWhile p = t := by
  induction xs with
  | nil =>
      simp only [List.nil_append]
      match t with
      | [] => simp
      | c :: r => simp [List.takeWhile_cons, List.dropWhile_cons, ht c r rfl]
  | cons x xs ih =>
      have hx : p x = true := hall x (by simp)
      obtain ⟨ih1, ih2⟩ := ih (fun y hy => hall y (by simp [hy]))
      simp [List.takeWhile_cons, List.dropWhile_cons, hx, ih1, ih2]

theorem parseNat_natDigits (m : Nat) (t : List Nat)
    (ht : ∀ c r, t = c :: r → isDigit c = false) :
    parseNat (natDigits m ++ t) = some (m, t) := by
  obtain ⟨h1, h2⟩ := takeWhile_all_append isDigit (natDigits m) t
    (fun x hx => by
      have := natDigits_digits m x hx
      simp [isDigit]
      omega) ht
  rw [parseNat, h1, h2, if_neg (natDigits_ne_nil m), digitsVal_natDigits]

theorem parseInt_dumpInt (n : Int) (t : List Nat)
    (ht : ∀ c r, t = c :: r → isDigit c = false) :
    parseInt (dumpInt n ++ t) = some (n, t) := by
  rw [dumpInt]
  split_ifs with hn
  · simp only [List.cons_append]
    rw [parseInt, if_pos rfl, parseNat_natDigits n.natAbs t ht]
    simp only [Option.map_some']
    congr 2
    omega
  · match hd : natDigits n.natAbs with
    | [] => exact absurd hd (natDigits_ne_nil _)
    | c :: r =>
        have hc : 48 ≤ c ∧ c ≤ 57 := natDigits_digits n.natAbs c (by rw [hd]; simp)
        simp only [List.cons_append]
        rw [parseInt, if_neg (by omega)]
        rw [show c :: (r ++ t) = natDigits n.natAbs ++ t by rw [hd]; simp]
        rw [parseNat_natDigits n.natAbs t ht]
        simp only [Option.map_some']
        congr 2
        omega

/-- Well-formedness of an atom: its strings hold Unicode scalar values. -/
def wfAtom : JAtom → Prop
  | .jstr s => isStr s
  | _ => True

/-- Well-formedness of object items. -/
def wfFields (fields : JFields) : Prop := ∀ kv ∈ fields, isStr kv.1 ∧ wfAtom kv.2

theorem skipWs_nil : skipWs [] = [] := rfl

theorem skipWs_cons_not (c : Nat) (r : List Nat) (h : isWs c = false) :
    skipWs (c :: r) = c :: r := by
  simp [skipWs, List.dropWhile_cons, h]

theorem skipWs_space (r : List Nat) : skipWs (32 :: r) = skipWs r := by
  simp [skipWs, List.dropWhile_cons, isWs]

theorem parseStr_escString (s : List Nat) (hs : isStr s) (t : List Nat) :
    parseStr (escString s ++ (34 :: t)) = some (s, t) := by
  rw [parseStr]
  refine parseStrBody_escString s hs _ t ?_
  have := escString_length s
  simp only [List.length_append, List.length_cons]
  omega

theorem parseAtom_quote (r : List Nat) :
    parseAtom (34 :: r) = (parseStr r).map (fun p => (JAtom.jstr p.1, p.2)) := by
  simp [parseAtom]

theorem parseAtom_null (r : List Nat) : parseAtom (110 :: r) = parseNullTail r := by
  simp [parseAtom]

theorem parseAtom_num (c : Nat) (r : List Nat) (h34 : c ≠ 34) (h110 : c ≠ 110) :
    parseAtom (c :: r) = (parseInt (c :: r)).map (fun p => (JAtom.jint p.1, p.2)) := by
  simp [parseAtom, h34, h110]

theorem dumpInt_head (n : Int) :
    ∃ c r, dumpInt n = c :: r ∧ (c = 45 ∨ (48 ≤ c ∧ c ≤ 57)) := by
  rw [dumpInt]
  split_ifs with hn
  · exact ⟨45, natDigits n.natAbs, rfl, Or.inl rfl⟩
  · match hd : natDigits n.natAbs with
    | [] => exact absurd hd (natDigits_ne_nil _)
    | c :: r =>
        exact ⟨c, r, rfl, Or.inr (natDigits_digits n.natAbs c (by rw [hd]; simp))⟩

theorem parseAtom_dumpAtom (v : JAtom) (hv : wfAtom v) (t : List Nat)
    (ht : ∀ c r, t = c :: r → isDigit c = false) :
    parseAtom (dumpAtom v ++ t) = some (v, t) := by
  match v with
  | .jnull =>
      show parseAtom ([110, 117, 108, 108] ++ t) = _
      simp only [List.cons_append, List.nil_append]
      rw [parseAtom_null]
      simp [parseNullTail]
  | .jstr s =>
      have hshape : dumpAtom (JAtom.jstr s) ++ t = 34 :: (escString s ++ (34 :: t)) := by
        simp [dumpAtom, dumpStr]
      rw [hshape, parseAtom_quote, parseStr_escString s hv t]
      rfl
  | .jint n =>
      obtain ⟨c, r, hd, hc⟩ := dumpInt_head n
      have hshape : dumpAtom (JAtom.jint n) ++ t = c :: (r ++ t) := by
        simp [dumpAtom, hd]
      rw [hshape, parseAtom_num c (r ++ t) (by omega) (by omega),
        show c :: (r ++ t) = dumpInt n ++ t by simp [hd],
        parseInt_dumpInt n t ht]
      rfl

theorem dumpAtom_skipWs (v : JAtom) (t : List Nat) :
    skipWs (dumpAtom v ++ t) = dumpAtom v ++ t := by
  match v with
  | .jnull => exact skipWs_cons_not 110 _ (by decide)
  | .jstr s =>
      show skipWs (34 :: (escString s ++ [34]) ++ t) = 34 :: (escString s ++ [34]) ++ t
      simp only [List.cons_append]
      exact skipWs_cons_not 34 _ (by decide)
  | .jint n =>
      obtain ⟨c, r, hd, hc⟩ := dumpInt_head n
      show skipWs (dumpInt n ++ t) = dumpInt n ++ t
      rw [hd]
      simp only [List.cons_append]
      refine skipWs_cons_not c _ ?_
      simp only [isWs, decide_eq_false_iff_not]
      omega

theorem parseKV_dump (k : List Nat) (hk : isStr k) (v : JAtom) (hv : wfAtom v)
    (t : List Nat) (ht : ∀ c r, t = c :: r → isDigit c = false) :
    parseKV (dumpStr k ++ (58 :: 32 :: (dumpAtom v ++ t))) = some ((k, v), t) := by
  have hshape : dumpStr k ++ (58 :: 32 :: (dumpAtom v ++ t)) =
      34 :: (escString k ++ (34 :: (58 :: 32 :: (dumpAtom v ++ t)))) := by
    simp [dumpStr]
  have e1 : skipWs (34 :: (escString k ++ (34 :: (58 :: 32 :: (dumpAtom v ++ t))))) =
      34 :: (escString k ++ (34 :: (58 :: 32 :: (dumpAtom v ++ t)))) :=
    skipWs_cons_not _ _ (by decide)
  have e2 := parseStr_escString k hk (58 :: 32 :: (dumpAtom v ++ t))
  have e3 : skipWs (58 :: 32 :: (dumpAtom v ++ t)) = 58 :: 32 :: (dumpAtom v ++ t) :=
    skipWs_cons_not _ _ (by decide)
  have e4 : skipWs (32 :: (dumpAtom v ++ t)) = dumpAtom v ++ t :=
    (skipWs_space _).trans (dumpAtom_skipWs v t)
  have e5 := parseAtom_dumpAtom v hv t ht
  rw [hshape]
  simp [parseKV, e1, e2, e3, e4, e5]

theorem parseKV_ws (l : List Nat) : parseKV (32 :: l) = parseKV l := by
  simp only [parseKV, skipWs_space]

theorem parseItems_ws (fuel : Nat) (l : List Nat) :
    parseItems fuel (32 :: l) = parseItems fuel l := by
  match fuel with
  | 0 => rfl
  | f + 1 => simp only [parseItems, parseKV_ws]

theorem parseItems_dump (fields : JFields) (hf : wfFields fields) (hne : fields ≠ []) :
    ∀ fuel t, fields.length ≤ fuel →
      parseItems fuel (dumpItems fields ++ (125 :: t)) = some (fields, t) := by
  induction fields with
  | nil => exact absurd rfl hne
  | cons kv rest ih =>
      intro fuel t hfuel
      obtain ⟨k, v⟩ := kv
      have hkv := hf (k, v) (by simp)
      match fuel with
      | f + 1 =>
          match rest with
          | [] =>
              have e1 := parseKV_dump k hkv.1 v hkv.2 (125 :: t)
                (fun c r hcr => by cases hcr; simp [isDigit])
              have e2 : skipWs (125 :: t) = 125 :: t := skipWs_cons_not _ _ (by decide)
              have hshape : dumpItems [(k, v)] ++ (125 :: t) =
                  dumpStr k ++ (58 :: 32 :: (dumpAtom v ++ (125 :: t))) := by
                simp [dumpItems]
              rw [hshape]
              simp [parseItems, e1, e2]
          | kv2 :: rest2 =>
              have hrest : wfFields (kv2 :: rest2) := fun x hx => hf x (by simp [hx])
              have e1 := parseKV_dump k hkv.1 v hkv.2
                (44 :: 32 :: (dumpItems (kv2 :: rest2) ++ (125 :: t)))
                (fun c r hcr => by cases hcr; simp [isDigit])
              have e2 : skipWs (44 :: 32 :: (dumpItems (kv2 :: rest2) ++ (125 :: t))) =
                  44 :: 32 :: (dumpItems (kv2 :: rest2) ++ (125 :: t)) :=
                skipWs_cons_not _ _ (by decide)
              have e3 := parseItems_ws f (dumpItems (kv2 :: rest2) ++ (125 :: t))
              have e4 := ih hrest (by simp) f t (by simpa using hfuel)
              have hshape : dumpItems ((k, v) :: kv2 :: rest2) ++ (125 :: t) =
                  dumpStr k ++ (58 :: 32 ::
                    (dumpAtom v ++ (44 :: 32 :: (dumpItems (kv2 :: rest2) ++ (125 :: t))))) := by
                simp [dumpItems]
              rw [hshape]
              simp [parseItems, e1, e2, e3, e4]

theorem dumpStr_length (s : List Nat) : 2 ≤ (dumpStr s).length := by
  simp [dumpStr]

theorem dumpItems_length (fields : JFields) : fields.length ≤ (dumpItems fields).length := by
  induction fields with
  | nil => simp [dumpItems]
  | cons kv rest ih =>
      obtain ⟨k, v⟩ := kv
      match rest with
      | [] =>
          show 1 ≤ (dumpStr k ++ (58 :: 32 :: dumpAtom v)).length
          have := dumpStr_length k
          simp only [List.length_append, List.length_cons]
          omega
      | kv2 :: rest2 =>
          show (kv2 :: rest2).length + 1 ≤
            (dumpStr k ++ (58 :: 32 :: dumpAtom v) ++
              (44 :: 32 :: dumpItems (kv2 :: rest2))).length
          have := dumpStr_length k
          simp only [List.length_append, List.length_cons] at *
          omega

theorem parseObjItems_dump (fields : JFields) (hf : wfFields fields) (hne : fields ≠ [])
    (t : List Nat) :
    parseObjItems (dumpItems fields ++ (125 :: t)) = some (fields, t) := by
  rw [parseObjItems]
  refine parseItems_dump fields hf hne _ t ?_
  have := dumpItems_length fields
  simp only [List.length_append, List.length_cons]
  omega

theorem dumpItems_cons_head (k : List Nat) (v : JAtom) (rest : JFields) :
    ∃ y, dumpItems ((k, v) :: rest) = 34 :: y := by
  match rest with
  | [] => exact ⟨_, rfl⟩
  | kv2 :: rest2 => exact ⟨_, rfl⟩

theorem jsonLoads_jsonDumps (fields : JFields) (hf : wfFields fields) :
    jsonLoads (jsonDumps fields) = some fields := by
  match fields with
  | [] => rfl
  | (k, v) :: rest =>
      obtain ⟨y, hy⟩ := dumpItems_cons_head k v rest
      have e0 : skipWs (123 :: (dumpItems ((k, v) :: rest) ++ [125])) =
          123 :: (dumpItems ((k, v) :: rest) ++ [125]) :=
        skipWs_cons_not _ _ (by decide)
      have e1 : skipWs (dumpItems ((k, v) :: rest) ++ [125]) =
          dumpItems ((k, v) :: rest) ++ [125] := by
        rw [hy]
        simp only [List.cons_append]
        exact skipWs_cons_not _ _ (by decide)
      have hy2 : dumpItems ((k, v) :: rest) ++ [125] = 34 :: (y ++ [125]) := by
        rw [hy]; simp
      have e1' : skipWs (34 :: (y ++ [125])) = 34 :: (y ++ [125]) :=
        skipWs_cons_not _ _ (by decide)
      have e3' := parseObjItems_dump ((k, v) :: rest) hf (by simp) []
      rw [hy2] at e3'
      rw [jsonDumps, jsonLoads, e0, hy2]
      simp [e1', e3', skipWs_nil]
/-! ### Package (htcp/backend/proto.py)

The dataclass and the binary codec.  Flags byte: bit 0 encrypted,
bit 1 passkey present, bit 2 response. -/

def FLAG_ENCRYPTED : Nat := 0x01

def FLAG_PASSKEY : Nat := 0x02

def FLAG_RESPONSE : Nat := 0x04

/-- The Package dataclass.  Optional fields mirror the Python
`Optional[...]` declarations. -/
structure Package where
  transaction : List Nat
  content : List Nat
  uuid : Option (List Nat) := none
  from_addr : Option (List Nat) := none
  protocol_version : Option (List Nat) := none
  protocol_id : Option Int := none
  passkey : Option (List Nat) := none
deriving DecidableEq

/-- Modelled from the spec: the constructor environment.  `uuid4` stands for
the random UUID string `__post_init__` draws when `uuid` is absent, and
`protocol_version`/`protocol_id` stand for the constants of the
`htcp/version.py` module (imported by `proto.py` but not part of the
sources), "implementation-defined version tags echoed through unchanged". -/
structure PkgEnv where
  uuid4 : List Nat
  protocol_version : List Nat
  protocol_id : Int

/-- Embeds Package.__post_init__: fill uuid and the version fields when
absent. -/
def postInit (env : PkgEnv) (p : Package) : Package :=
  { p with
    uuid := some (p.uuid.getD env.uuid4)
    protocol_version := some (p.protocol_version.getD env.protocol_version)
    protocol_id := some (p.protocol_id.getD env.protocol_id) }

/-- A call of the Package constructor (dataclass construction followed by
__post_init__). -/
def pkgNew (env : PkgEnv) (transaction content : List Nat)
    (uuid from_addr : Option (List Nat) := none)
    (passkey : Option (List Nat) := none) : Package :=
  postInit env
    { transaction := transaction, content := content, uuid := uuid,
      from_addr := from_addr, passkey := passkey }

def kProtocolVersion : List Nat := strCodes "protocol_version"

def kProtocolId : List Nat := strCodes "protocol_id"

def kUuid : List Nat := strCodes "uuid"

def kTransaction : List Nat := strCodes "transaction"

def kFrom : List Nat := strCodes "from"

def kContent : List Nat := strCodes "content"

def kPasskey : List Nat := strCodes "passkey"

/-- json.dumps serializes a Python None as null. -/
def optStrAtom : Option (List Nat) → JAtom
  | none => .jnull
  | some s => .jstr s

def optIntAtom : Option Int → JAtom
  | none => .jnull
  | some n => .jint n

/-- The dict Package.to_json builds, in insertion order; the passkey key is
present only when the field is set. -/
def Package.toJsonFields (p : Package) : JFields :=
  [(kProtocolVersion, optStrAtom p.protocol_version),
   (kProtocolId, optIntAtom p.protocol_id),
   (kUuid, optStrAtom p.uuid),
   (kTransaction, .jstr p.transaction),
   (kFrom, optStrAtom p.from_addr),
   (kContent, .jstr (b64encode p.content))] ++
  (match p.passkey with
   | some pk => [(kPasskey, .jstr pk)]
   | none => [])

/-- Embeds Package.to_json (the JSON text, as code points). -/
def Package.to_json (p : Package) : List Nat := jsonDumps p.toJsonFields

/-- Embeds Package.to_bytes.  struct.pack(">I", n) raises struct.error when
the total length does not fit 32 bits; that failure is the error case. -/
def Package.to_bytes (p : Package) (encrypted : Bool := false)
    (is_response : Bool := false) : Except String (List Nat) :=
  let payload := utf8Encode p.to_json
  let flags := (if encrypted then FLAG_ENCRYPTED else 0) |||
    (if p.passkey.isSome then FLAG_PASSKEY else 0) |||
    (if is_response then FLAG_RESPONSE else 0)
  let total_length := 5 + payload.length
  if total_length < 2 ^ 32 then .ok (packBE32 total_length ++ (flags :: payload))
  else .error "struct.error"

/-- Read an optional string field as the dataclass will store it: an absent
key and a null value both give None.  Where CPython would happily store a
non-string value in the field, the typed embedding reports an error; the
wire image of to_bytes never takes that branch. -/
def asOptStr : Option JAtom → Except String (Option (List Nat))
  | none => .ok none
  | some .jnull => .ok none
  | some (.jstr s) => .ok (some s)
  | some (.jint _) => .error "non-string field"

def asOptInt : Option JAtom → Except String (Option Int)
  | none => .ok none
  | some .jnull => .ok none
  | some (.jint n) => .ok (some n)
  | some (.jstr _) => .error "non-int field"

/-- Embeds Package.from_bytes: length checks, UTF-8 decode, JSON parse,
Base64-decode of content, field extraction, constructor (with
__post_init__ via the environment). -/
def Package.from_bytes (env : PkgEnv) (data : List Nat) : Except String Package :=
  if data.length < 5 then .error "Data too short for HTCP message"
  else
    let length := unpackBE32 (data.take 4)
    if data.length ≠ length then .error "Length mismatch"
    else
      match utf8Decode (data.drop 5) with
      | none => .error "UnicodeDecodeError"
      | some payload =>
        match jsonLoads payload with
        | none => .error "json.JSONDecodeError"
        | some fields =>
          match dictGet fields kContent with
          | none => .error "KeyError: content"
          | some (.jint _) => .error "TypeError: b64decode of int"
          | some .jnull => .error "TypeError: b64decode of None"
          | some (.jstr contentB64) =>
            match b64decode contentB64 with
            | none => .error "binascii.Error"
            | some content =>
              match dictGet fields kTransaction with
              | none => .error "KeyError: transaction"
              | some (.jstr transaction) =>
                (do
                  let uuid ← asOptStr (dictGet fields kUuid)
                  let from_addr ← asOptStr (dictGet fields kFrom)
                  let protocol_version ← asOptStr (dictGet fields kProtocolVersion)
                  let protocol_id ← asOptInt (dictGet fields kProtocolId)
                  let passkey ← asOptStr (dictGet fields kPasskey)
                  pure (postInit env
                    { transaction := transaction, content := content, uuid := uuid,
                      from_addr := from_addr, protocol_version := protocol_version,
                      protocol_id := protocol_id, passkey := passkey }))
              | some _ => .error "non-string transaction"

/-- Embeds Package.get_flags. -/
def Package.get_flags (data : List Nat) : Except String Nat :=
  if data.length < 5 then .error "Data too short for header"
  else .ok (data.getD 4 0)

/-- Embeds Package.is_encrypted. -/
def Package.is_encrypted (data : List Nat) : Except String Bool :=
  (Package.get_flags data).map (fun f => decide (f &&& FLAG_ENCRYPTED ≠ 0))

/-- Embeds Package.is_response. -/
def Package.is_response (data : List Nat) : Except String Bool :=
  (Package.get_flags data).map (fun f => decide (f &&& FLAG_RESPONSE ≠ 0))

/-- Embeds Package.has_passkey. -/
def Package.has_passkey (data : List Nat) : Except String Bool :=
  (Package.get_flags data).map (fun f => decide (f &&& FLAG_PASSKEY ≠ 0))

/-- Python truthiness of an optional string: None and the empty string are
falsy. -/
def truthyOptStr : Option (List Nat) → Bool
  | none => false
  | some s => decide (s ≠ [])

/-- Embeds create_error_package: content is the JSON of an error dict; the
uuid echoes request_uuid only when that is truthy, else a fresh one is
drawn. -/
def create_error_package (env : PkgEnv) (transaction : List Nat)
    (error_message : List Nat) (request_uuid : Option (List Nat) := none) : Package :=
  pkgNew env transaction
    (utf8Encode (jsonDumps [(strCodes "error", .jstr error_message)]))
    (if truthyOptStr request_uuid then request_uuid else some env.uuid4)

/-! ### Well-formed packages and codec round-trip lemmas -/

/-- An optional string field holds a valid string when present. -/
def optIsStr : Option (List Nat) → Prop
  | none => True
  | some s => isStr s

instance : ∀ o, Decidable (optIsStr o)
  | none => isTrue trivial
  | some s => inferInstanceAs (Decidable (isStr s))

/-- A well-formed package: content is bytes, string fields are strings, and
the __post_init__ invariant holds (uuid and the version fields present). -/
def Package.wf (p : Package) : Prop :=
  isBytes p.content ∧ isStr p.transaction ∧ optIsStr p.uuid ∧ optIsStr p.from_addr ∧
  optIsStr p.protocol_version ∧ optIsStr p.passkey ∧
  p.uuid.isSome ∧ p.protocol_version.isSome ∧ p.protocol_id.isSome

instance (p : Package) : Decidable p.wf :=
  inferInstanceAs (Decidable (_ ∧ _))

theorem ascii_isStr (l : List Nat) (h : ∀ c ∈ l, c < 128) : isStr l :=
  fun c hc => by have := h c hc; omega

theorem b64char_lt (v : Nat) : b64char v < 128 := by
  rw [b64char]
  split_ifs <;> omega

theorem b64encode_ascii (l : List Nat) : ∀ c ∈ b64encode l, c < 128 := by
  induction l using b64encode.induct with
  | case1 => simp [b64encode]
  | case2 a =>
      intro c hc
      simp [b64encode] at hc
      rcases hc with rfl | rfl | rfl | rfl <;> first | exact b64char_lt _ | omega
  | case3 a b =>
      intro c hc
      simp [b64encode] at hc
      rcases hc with rfl | rfl | rfl | rfl <;> first | exact b64char_lt _ | omega
  | case4 a b c' rest ih =>
      intro c hc
      simp only [b64encode, List.mem_cons] at hc
      rcases hc with rfl | rfl | rfl | rfl | hm
      · exact b64char_lt _
      · exact b64char_lt _
      · exact b64char_lt _
      · exact b64char_lt _
      · exact ih c hm

theorem escString_ascii (s : List Nat) : ∀ c ∈ escString s, c < 128 := by
  intro c hc
  simp only [escString, List.mem_flatten, List.mem_map] at hc
  obtain ⟨l, ⟨x, _, rfl⟩, hcl⟩ := hc
  exact escChar_ascii x c hcl

theorem dumpStr_ascii (s : List Nat) : ∀ c ∈ dumpStr s, c < 128 := by
  intro c hc
  simp only [dumpStr, List.mem_cons, List.mem_append] at hc
  rcases hc with rfl | hm | hm
  · omega
  · exact escString_ascii s c hm
  · simp at hm
    omega

theorem dumpInt_ascii (n : Int) : ∀ c ∈ dumpInt n, c < 128 := by
  intro c hc
  rw [dumpInt] at hc
  split_ifs at hc with h
  · simp only [List.mem_cons] at hc
    rcases hc with rfl | hm
    · omega
    · have := natDigits_digits n.natAbs c hm
      omega
  · have := natDigits_digits n.natAbs c hc
    omega

theorem dumpAtom_ascii (v : JAtom) : ∀ c ∈ dumpAtom v, c < 128 := by
  match v with
  | .jnull =>
      intro c hc
      simp [dumpAtom] at hc
      omega
  | .jstr s => exact dumpStr_ascii s
  | .jint n => exact dumpInt_ascii n

theorem dumpItems_ascii (fields : JFields) : ∀ c ∈ dumpItems fields, c < 128 := by
  induction fields using dumpItems.induct with
  | case1 => simp [dumpItems]
  | case2 k v =>
      intro c hc
      rw [dumpItems] at hc
      simp only [List.mem_append, List.mem_cons] at hc
      rcases hc with hm | rfl | rfl | hm
      · exact dumpStr_ascii k c hm
      · omega
      · omega
      · exact dumpAtom_ascii v c hm
  | case3 k v rest hne ih =>
      intro c hc
      rw [dumpItems] at hc
      · simp only [List.mem_append, List.mem_cons] at hc
        rcases hc with (hm | rfl | rfl | hm) | rfl | rfl | hm
        · exact dumpStr_ascii k c hm
        · omega
        · omega
        · exact dumpAtom_ascii v c hm
        · omega
        · omega
        · exact ih c hm
      · exact hne

theorem jsonDumps_ascii (fields : JFields) : ∀ c ∈ jsonDumps fields, c < 128 := by
  intro c hc
  simp only [jsonDumps, List.mem_cons, List.mem_append] at hc
  rcases hc with rfl | hm | hm
  · omega
  · exact dumpItems_ascii fields c hm
  · simp at hm
    omega

theorem toJsonFields_wf (p : Package) (hp : p.wf) : wfFields p.toJsonFields := by
  obtain ⟨hc, htr, hu, hf, hpv, hpk, _, _, _⟩ := hp
  intro kv hkv
  simp only [Package.toJsonFields, List.mem_append, List.mem_cons,
    List.not_mem_nil, or_false] at hkv
  have hball : ∀ o : Option (List Nat), optIsStr o → wfAtom (optStrAtom o) := by
    intro o ho
    match o with
    | none => trivial
    | some s => exact ho
  have hbint : ∀ o : Option Int, wfAtom (optIntAtom o) := by
    intro o
    match o with
    | none => trivial
    | some n => trivial
  rcases hkv with (rfl | rfl | rfl | rfl | rfl | rfl) | hm
  · exact ⟨show isStr kProtocolVersion by decide, hball _ hpv⟩
  · exact ⟨show isStr kProtocolId by decide, hbint _⟩
  · exact ⟨show isStr kUuid by decide, hball _ hu⟩
  · exact ⟨show isStr kTransaction by decide, htr⟩
  · exact ⟨show isStr kFrom by decide, hball _ hf⟩
  · exact ⟨show isStr kContent by decide, ascii_isStr _ (b64encode_ascii p.content)⟩
  · match hpks : p.passkey with
    | some pk =>
        rw [hpks] at hm
        simp at hm
        subst hm
        rw [hpks] at hpk
        exact ⟨show isStr kPasskey by decide, hpk⟩
    | none =>
        rw [hpks] at hm
        simp at hm

theorem dictGet_tjf_content (p : Package) :
    dictGet p.toJsonFields kContent = some (.jstr (b64encode p.content)) := by
  have h1 : kProtocolVersion ≠ kContent := by decide
  have h2 : kProtocolId ≠ kContent := by decide
  have h3 : kUuid ≠ kContent := by decide
  have h4 : kTransaction ≠ kContent := by decide
  have h5 : kFrom ≠ kContent := by decide
  have h6 : kPasskey ≠ kContent := by decide
  match hpk : p.passkey with
  | none => simp [dictGet, Package.toJsonFields, hpk, h1, h2, h3, h4, h5]
  | some pk => simp [dictGet, Package.toJsonFields, hpk, h1, h2, h3, h4, h5, h6]

theorem dictGet_tjf_transaction (p : Package) :
    dictGet p.toJsonFields kTransaction = some (.jstr p.transaction) := by
  have h1 : kProtocolVersion ≠ kTransaction := by decide
  have h2 : kProtocolId ≠ kTransaction := by decide
  have h3 : kUuid ≠ kTransaction := by decide
  have h5 : kFrom ≠ kTransaction := by decide
  have h6 : kContent ≠ kTransaction := by decide
  have h7 : kPasskey ≠ kTransaction := by decide
  match hpk : p.passkey with
  | none => simp [dictGet, Package.toJsonFields, hpk, h1, h2, h3, h5, h6]
  | some pk => simp [dictGet, Package.toJsonFields, hpk, h1, h2, h3, h5, h6, h7]

theorem asOptStr_optStrAtom (o : Option (List Nat)) :
    asOptStr (some (optStrAtom o)) = .ok o := by
  match o with
  | none => rfl
  | some s => rfl

theorem asOptInt_optIntAtom (o : Option Int) :
    asOptInt (some (optIntAtom o)) = .ok o := by
  match o with
  | none => rfl
  | some n => rfl

theorem dictGet_tjf_uuid (p : Package) :
    asOptStr (dictGet p.toJsonFields kUuid) = .ok p.uuid := by
  have h1 : kProtocolVersion ≠ kUuid := by decide
  have h2 : kProtocolId ≠ kUuid := by decide
  have h4 : kTransaction ≠ kUuid := by decide
  have h5 : kFrom ≠ kUuid := by decide
  have h6 : kContent ≠ kUuid := by decide
  have h7 : kPasskey ≠ kUuid := by decide
  have hd : dictGet p.toJsonFields kUuid = some (optStrAtom p.uuid) := by
    match hpk : p.passkey with
    | none => simp [dictGet, Package.toJsonFields, hpk, h1, h2, h4, h5, h6]
    | some pk => simp [dictGet, Package.toJsonFields, hpk, h1, h2, h4, h5, h6, h7]
  rw [hd, asOptStr_optStrAtom]

theorem dictGet_tjf_from (p : Package) :
    asOptStr (dictGet p.toJsonFields kFrom) = .ok p.from_addr := by
  have h1 : kProtocolVersion ≠ kFrom := by decide
  have h2 : kProtocolId ≠ kFrom := by decide
  have h3 : kUuid ≠ kFrom := by decide
  have h4 : kTransaction ≠ kFrom := by decide
  have h6 : kContent ≠ kFrom := by decide
  have h7 : kPasskey ≠ kFrom := by decide
  have hd : dictGet p.toJsonFields kFrom = some (optStrAtom p.from_addr) := by
    match hpk : p.passkey with
    | none => simp [dictGet, Package.toJsonFields, hpk, h1, h2, h3, h4, h6]
    | some pk => simp [dictGet, Package.toJsonFields, hpk, h1, h2, h3, h4, h6, h7]
  rw [hd, asOptStr_optStrAtom]

theorem dictGet_tjf_pv (p : Package) :
    asOptStr (dictGet p.toJsonFields kProtocolVersion) = .ok p.protocol_version := by
  have h2 : kProtocolId ≠ kProtocolVersion := by decide
  have h3 : kUuid ≠ kProtocolVersion := by decide
  have h4 : kTransaction ≠ kProtocolVersion := by decide
  have h5 : kFrom ≠ kProtocolVersion := by decide
  have h6 : kContent ≠ kProtocolVersion := by decide
  have h7 : kPasskey ≠ kProtocolVersion := by decide
  have hd : dictGet p.toJsonFields kProtocolVersion = some (optStrAtom p.protocol_version) := by
    match hpk : p.passkey with
    | none => simp [dictGet, Package.toJsonFields, hpk, h2, h3, h4, h5, h6]
    | some pk => simp [dictGet, Package.toJsonFields, hpk, h2, h3, h4, h5, h6, h7]
  rw [hd, asOptStr_optStrAtom]

theorem dictGet_tjf_pid (p : Package) :
    asOptInt (dictGet p.toJsonFields kProtocolId) = .ok p.protocol_id := by
  have h1 : kProtocolVersion ≠ kProtocolId := by decide
  have h3 : kUuid ≠ kProtocolId := by decide
  have h4 : kTransaction ≠ kProtocolId := by decide
  have h5 : kFrom ≠ kProtocolId := by decide
  have h6 : kContent ≠ kProtocolId := by decide
  have h7 : kPasskey ≠ kProtocolId := by decide
  have hd : dictGet p.toJsonFields kProtocolId = some (optIntAtom p.protocol_id) := by
    match hpk : p.passkey with
    | none => simp [dictGet, Package.toJsonFields, hpk, h1, h3, h4, h5, h6]
    | some pk => simp [dictGet, Package.toJsonFields, hpk, h1, h3, h4, h5, h6, h7]
  rw [hd, asOptInt_optIntAtom]

theorem dictGet_tjf_passkey (p : Package) :
    asOptStr (dictGet p.toJsonFields kPasskey) = .ok p.passkey := by
  have h1 : kProtocolVersion ≠ kPasskey := by decide
  have h2 : kProtocolId ≠ kPasskey := by decide
  have h3 : kUuid ≠ kPasskey := by decide
  have h4 : kTransaction ≠ kPasskey := by decide
  have h5 : kFrom ≠ kPasskey := by decide
  have h6 : kContent ≠ kPasskey := by decide
  match hpk : p.passkey with
  | none =>
      have hd : dictGet p.toJsonFields kPasskey = none := by
        simp [dictGet, Package.toJsonFields, hpk, h1, h2, h3, h4, h5, h6]
      rw [hd]
      rfl
  | some pk =>
      have hd : dictGet p.toJsonFields kPasskey = some (.jstr pk) := by
        simp [dictGet, Package.toJsonFields, hpk, h1, h2, h3, h4, h5, h6]
      rw [hd]
      rfl

theorem postInit_id (env : PkgEnv) (p : Package) (h1 : p.uuid.isSome)
    (h2 : p.protocol_version.isSome) (h3 : p.protocol_id.isSome) :
    postInit env p = p := by
  match p, h1, h2, h3 with
  | ⟨tr, ct, some u, fa, some pv, some pid, pk⟩, _, _, _ => rfl

theorem from_bytes_frame (env : PkgEnv) (p : Package) (hp : p.wf) (F : Nat)
    (hlen : 5 + (utf8Encode (jsonDumps p.toJsonFields)).length < 2 ^ 32) :
    Package.from_bytes env
      (packBE32 (5 + (utf8Encode (jsonDumps p.toJsonFields)).length) ++
        (F :: utf8Encode (jsonDumps p.toJsonFields))) = .ok p := by
  obtain ⟨hcb, htr, hu, hf, hpv, hpk, hus, hpvs, hpids⟩ := hp
  have hascii := jsonDumps_ascii p.toJsonFields
  have hdecode := utf8Decode_utf8Encode_ascii (jsonDumps p.toJsonFields) hascii
  have hloads := jsonLoads_jsonDumps p.toJsonFields
    (toJsonFields_wf p ⟨hcb, htr, hu, hf, hpv, hpk, hus, hpvs, hpids⟩)
  have hb64 := b64decode_b64encode p.content hcb
  have e_content := dictGet_tjf_content p
  have e_tr := dictGet_tjf_transaction p
  have e_uuid := dictGet_tjf_uuid p
  have e_from := dictGet_tjf_from p
  have e_pv := dictGet_tjf_pv p
  have e_pid := dictGet_tjf_pid p
  have e_pk := dictGet_tjf_passkey p
  have epi := postInit_id env p hus hpvs hpids
  have htake : (packBE32 (5 + (utf8Encode (jsonDumps p.toJsonFields)).length) ++
      (F :: utf8Encode (jsonDumps p.toJsonFields))).take 4 =
      packBE32 (5 + (utf8Encode (jsonDumps p.toJsonFields)).length) := rfl
  have hdrop : (packBE32 (5 + (utf8Encode (jsonDumps p.toJsonFields)).length) ++
      (F :: utf8Encode (jsonDumps p.toJsonFields))).drop 5 =
      utf8Encode (jsonDumps p.toJsonFields) := rfl
  have hlenEq : (packBE32 (5 + (utf8Encode (jsonDumps p.toJsonFields)).length) ++
      (F :: utf8Encode (jsonDumps p.toJsonFields))).length =
      5 + (utf8Encode (jsonDumps p.toJsonFields)).length := by
    simp [packBE32]
    omega
  have hunpack := unpackBE32_packBE32 (5 + (utf8Encode (jsonDumps p.toJsonFields)).length) hlen
  simp only [Package.from_bytes, htake, hdrop, hlenEq, hunpack]
  rw [if_neg (by omega), if_neg (by simp)]
  rw [hdecode]
  simp [hloads, e_content, hb64, e_tr, e_uuid, e_from, e_pv, e_pid, e_pk, epi,
    Except.instMonad, Except.bind, Except.pure]

theorem from_bytes_to_bytes (env : PkgEnv) (p : Package) (hp : p.wf) (enc resp : Bool)
    (data : List Nat) (h : p.to_bytes enc resp = .ok data) :
    Package.from_bytes env data = .ok p := by
  simp only [Package.to_bytes, Package.to_json] at h
  by_cases hlen : 5 + (utf8Encode (jsonDumps p.toJsonFields)).length < 2 ^ 32
  · rw [if_pos hlen] at h
    simp only [Except.ok.injEq] at h
    subst h
    exact from_bytes_frame env p hp _ hlen
  · rw [if_neg hlen] at h
    simp at h
/-! ### DHEncryption padding (htcp/backend/dh_encryption.py)

PKCS#7 padding and its validation.  Python negative-index slicing
`data[:-n]` is `data[:0] = b""` when n = 0, which matters below. -/

/-- Python `data[:-n]` for a nonnegative n: since -0 is 0, the slice is
empty when n = 0; otherwise it drops the last n items. -/
def pySliceToNeg (data : List Nat) (n : Nat) : List Nat :=
  if n = 0 then [] else data.take (data.length - n)

namespace DHEncryption

/-- Embeds DHEncryption._pad. -/
def pad (data : List Nat) : List Nat :=
  data ++ List.replicate (16 - data.length % 16) (16 - data.length % 16)

/-- Embeds DHEncryption._unpad: the checks of decrypt's validation step. -/
def unpad (data : List Nat) : Except String (List Nat) :=
  if data.length = 0 then .error "Cannot unpad empty data"
  else
    let padding_length := (data.getLast?).getD 0
    if padding_length > 16 ∨ padding_length > data.length then .error "Invalid padding"
    else if ∃ i < padding_length, data.getD (data.length - (i + 1)) 0 ≠ padding_length then
      .error "Invalid padding bytes"
    else .ok (pySliceToNeg data padding_length)

end DHEncryption

/-! ### Server frame reading and client socket reading
(htcp/server.py, htcp_client/backend.py)

Streams are byte lists; reading returns the bytes read and the remaining
stream, a short read being the connection-closed error. -/

namespace PackageIO

/-- Embeds PackageIO._recv_exact: exactly n bytes or ConnectionError. -/
def recvExact (stream : List Nat) (n : Nat) : Except String (List Nat × List Nat) :=
  if n ≤ stream.length then .ok (stream.take n, stream.drop n)
  else .error "Connection closed by peer"

/-- Embeds PackageIO.receive: 5-byte header, big-endian length (which counts
the header), then length - 5 payload bytes; returns header ++ payload and
the rest of the stream.  No maximum length is imposed. -/
def receive (stream : List Nat) : Except String (List Nat × List Nat) :=
  match recvExact stream 5 with
  | .error e => .error e
  | .ok (header, s1) =>
      let length := unpackBE32 (header.take 4)
      match recvExact s1 (length - 5) with
      | .error e => .error e
      | .ok (payload, s2) => .ok (header ++ payload, s2)

end PackageIO

/-! ### Server request handling (htcp/request_handler.py, htcp/server.py) -/

/-- Server configuration fields the handling path uses. -/
structure Config where
  host : List Nat
  port : Nat
  connect_passkey : Option (List Nat)

/-- The "host:port" string the server stamps into responses. -/
def serverAddr (cfg : Config) : List Nat := cfg.host ++ (58 :: natDigits cfg.port)

/-- A request as dispatched to a handler. -/
structure Request where
  package : Package
  clientIp : List Nat
  clientPort : Nat

/-- What a user handler does with a request: return bytes, raise, or
return a value of some non-bytes type. -/
inductive HandlerOutcome where
  | ok (b : List Nat)
  | raised (msg : List Nat)
  | badType (typeName : List Nat)

/-- A handler registry: transaction string to handler, with the handler
abstracted into its observable outcome per request. -/
def Registry := List Nat → Option (Request → HandlerOutcome)

/-- Embeds RequestHandler.handle: ValueError for an unknown transaction,
re-raised handler exceptions, TypeError for a non-bytes result; the error
value is str(e) as _process_request passes it on. -/
def RequestHandler.handle (reg : Registry) (req : Request) : Except (List Nat) (List Nat) :=
  match reg req.package.transaction with
  | none => .error (strCodes "Unknown transaction: " ++ req.package.transaction)
  | some h =>
      match h req with
      | .ok b => .ok b
      | .raised msg => .error msg
      | .badType ty => .error (strCodes "Handler must return bytes, got " ++ ty)

/-- Embeds Server._process_request: dispatch; on success a response package
(request uuid, configured host:port, handler bytes), on failure an error
package via create_error_package with from_addr set afterwards.  Returns
the package handed to _send_package. -/
def processRequest (env : PkgEnv) (cfg : Config) (reg : Registry)
    (package : Package) (addr : List Nat × Nat) : Package :=
  let request : Request :=
    { package := package, clientIp := addr.1, clientPort := addr.2 }
  match RequestHandler.handle reg request with
  | .ok response_data =>
      pkgNew env package.transaction response_data package.uuid (some (serverAddr cfg))
  | .error e =>
      let error_pkg := create_error_package env package.transaction e package.uuid
      { error_pkg with from_addr := some (serverAddr cfg) }

/-- Embeds the serving loop of Server._handle_client (without encryption):
read packages until none arrives, process each in order; a handler failure
produces an error package and the loop continues. -/
def serveLoop (env : PkgEnv) (cfg : Config) (reg : Registry)
    (addr : List Nat × Nat) : List (Option Package) → List Package
  | [] => []
  | none :: _ => []
  | some package :: rest =>
      processRequest env cfg reg package addr :: serveLoop env cfg reg addr rest

/-- Embeds Server._send_package: serialize with is_response=True and
encrypted iff a session exists; under encryption the payload is replaced by
its ciphertext and the length word rewritten, the flags byte kept.  The
cipher is an abstract payload transform (AES-CBC with a random IV is not a
function of the payload alone). -/
def sendPackage (package : Package) (encryption : Option (List Nat → List Nat)) :
    Except String (List Nat) :=
  match package.to_bytes (encryption.isSome) true with
  | .error e => .error e
  | .ok data =>
      match encryption with
      | none => .ok data
      | some enc =>
          let flags := data.getD 4 0
          let payload := data.drop 5
          let encrypted_payload := enc payload
          let new_length := 5 + encrypted_payload.length
          if new_length < 2 ^ 32 then
            .ok (packBE32 new_length ++ (flags :: encrypted_payload))
          else .error "struct.error"

/-- Python attribute access `b.get` on a bytes value: bytes has no
attribute get, so an AttributeError is raised. -/
def bytesDotGet (b : List Nat) (key : List Nat) :
    Except String (Option (List Nat)) :=
  .error "AttributeError: bytes object has no attribute get"

/-- Embeds Server._validate_passkey: no package, a non-_auth transaction,
or any exception (and package.content.get raises AttributeError, content
being bytes) give False; only a successful comparison would give True. -/
def validatePasskey (connect_passkey : List Nat) (package : Option Package) : Bool :=
  match package with
  | none => false
  | some p =>
      if p.transaction ≠ strCodes "_auth" then false
      else
        match bytesDotGet p.content (strCodes "passkey") with
        | .error _ => false
        | .ok client_passkey => decide (client_passkey = some connect_passkey)

/-! ### Client (htcp_client/client.py), unencrypted path -/

/-- Embeds Client.receive (without encryption): read one framed message and
parse it. -/
def Client.receivePkg (env : PkgEnv) (stream : List Nat) : Except String Package :=
  match PackageIO.receive stream with
  | .error e => .error e
  | .ok (data, _) => Package.from_bytes env data

/-- Embeds Client.ask (receiving side): after sending, receive one package;
a uuid mismatch raises ValueError instead of returning. -/
def Client.ask (env : PkgEnv) (package : Package) (stream : List Nat) :
    Except String Package :=
  match Client.receivePkg env stream with
  | .error e => .error e
  | .ok response =>
      if response.uuid ≠ package.uuid then
        .error "Response UUID mismatch"
      else .ok response

/-! ### Admission control (htcp/server.py semaphores)

A transition system over the multiset of live connections: a connection is
accepted under the connection semaphore (capacity max_connections), and
moves between reading and handling under the processing semaphore
(capacity handle_connections), one handler at a time per connection as the
serving loop is sequential. -/

inductive ConnPhase where
  | reading : ConnPhase
  | handling : ConnPhase
deriving DecidableEq

/-- Number of handlers currently executing. -/
def countHandling (s : List ConnPhase) : Nat := s.countP (fun c => c = ConnPhase.handling)

/-- One scheduler step of the admission-control discipline. -/
inductive Step (maxConn handleMax : Nat) : List ConnPhase → List ConnPhase → Prop where
  | accept (s : List ConnPhase) (h : s.length < maxConn) :
      Step maxConn handleMax s (ConnPhase.reading :: s)
  | startHandle (pre post : List ConnPhase)
      (h : countHandling (pre ++ ConnPhase.reading :: post) < handleMax) :
      Step maxConn handleMax (pre ++ ConnPhase.reading :: post)
        (pre ++ ConnPhase.handling :: post)
  | finishHandle (pre post : List ConnPhase) :
      Step maxConn handleMax (pre ++ ConnPhase.handling :: post)
        (pre ++ ConnPhase.reading :: post)
  | close (pre post : List ConnPhase) :
      Step maxConn handleMax (pre ++ ConnPhase.reading :: post) (pre ++ post)

/-- States reachable from the idle server. -/
inductive Reachable (maxConn handleMax : Nat) : List ConnPhase → Prop where
  | init : Reachable maxConn handleMax []
  | step {s t : List ConnPhase} : Reachable maxConn handleMax s →
      Step maxConn handleMax s t → Reachable maxConn handleMax t

/-! ### Supporting lemmas for the claims -/

theorem getLast?_replicate (n : Nat) (x : Nat) (h : 0 < n) :
    (List.replicate n x).getLast? = some x := by
  match n with
  | m + 1 => rw [List.replicate_succ', List.getLast?_concat]

theorem replicate_getD (n j x : Nat) (h : j < n) : (List.replicate n x).getD j 0 = x := by
  rw [List.getD_eq_getElem _ _ (by simpa using h)]
  simp

theorem getD4_packBE32 (L F : Nat) (payload : List Nat) :
    (packBE32 L ++ (F :: payload)).getD 4 0 = F := rfl

theorem and_flag_testBit (f i : Nat) : decide (f &&& 2 ^ i ≠ 0) = f.testBit i := by
  rw [Nat.and_two_pow]
  cases h : f.testBit i
  · simp
  · simp [(Nat.two_pow_pos i).ne']

theorem flags_response_ne (a b : Bool) :
    (((if a then FLAG_ENCRYPTED else 0) ||| (if b then FLAG_PASSKEY else 0)) |||
      (if true then FLAG_RESPONSE else 0)) &&& FLAG_RESPONSE ≠ 0 := by
  cases a <;> cases b <;> decide

theorem to_bytes_ok_shape (p : Package) (enc resp : Bool) (data : List Nat)
    (h : p.to_bytes enc resp = .ok data) :
    data = packBE32 (5 + (utf8Encode (jsonDumps p.toJsonFields)).length) ++
      ((((if enc then FLAG_ENCRYPTED else 0) ||| (if p.passkey.isSome then FLAG_PASSKEY else 0)) |||
        (if resp then FLAG_RESPONSE else 0)) :: utf8Encode (jsonDumps p.toJsonFields)) := by
  simp only [Package.to_bytes, Package.to_json] at h
  by_cases hlen : 5 + (utf8Encode (jsonDumps p.toJsonFields)).length < 2 ^ 32
  · rw [if_pos hlen] at h
    simp only [Except.ok.injEq] at h
    exact h.symm
  · rw [if_neg hlen] at h
    simp at h

theorem sendPackage_flags (p : Package) (encryption : Option (List Nat → List Nat))
    (data : List Nat) (h : sendPackage p encryption = .ok data) :
    data.getD 4 0 &&& FLAG_RESPONSE ≠ 0 := by
  rw [sendPackage] at h
  rcases htb : p.to_bytes encryption.isSome true with e | data0
  · rw [htb] at h
    simp at h
  · rw [htb] at h
    have hshape := to_bytes_ok_shape _ _ _ _ htb
    cases encryption with
    | none =>
        simp only [Except.ok.injEq] at h
        rw [← h, hshape, getD4_packBE32]
        exact flags_response_ne _ _
    | some enc =>
        simp only at h
        split at h
        · simp only [Except.ok.injEq] at h
          rw [← h, getD4_packBE32, hshape, getD4_packBE32]
          exact flags_response_ne _ _
        · simp at h

theorem receive_frame (L flags : Nat) (payload rest : List Nat)
    (hL : payload.length = L - 5) (h5 : 5 ≤ L) (h32 : L < 2 ^ 32) :
    PackageIO.receive (packBE32 L ++ (flags :: (payload ++ rest))) =
      .ok (packBE32 L ++ (flags :: payload), rest) := by
  have hlen : (packBE32 L ++ (flags :: (payload ++ rest))).length =
      5 + payload.length + rest.length := by
    simp [packBE32]
    omega
  have h5le : 5 ≤ (packBE32 L ++ (flags :: (payload ++ rest))).length := by omega
  have htake5 : (packBE32 L ++ (flags :: (payload ++ rest))).take 5 =
      packBE32 L ++ [flags] := rfl
  have hdrop5 : (packBE32 L ++ (flags :: (payload ++ rest))).drop 5 = payload ++ rest := rfl
  have htake4 : (packBE32 L ++ [flags]).take 4 = packBE32 L := rfl
  have hunpack := unpackBE32_packBE32 L h32
  have h2 : L - 5 ≤ (payload ++ rest).length := by
    simp only [List.length_append]
    omega
  have htakeP : (payload ++ rest).take (L - 5) = payload := by
    rw [← hL]
    exact List.take_left payload rest
  have hdropP : (payload ++ rest).drop (L - 5) = rest := by
    rw [← hL]
    exact List.drop_left payload rest
  rw [ PackageIO.receive, PackageIO.recvExact, if_pos h5le, htake5, hdrop5]
  show (match PackageIO.recvExact (payload ++ rest)
      (unpackBE32 ((packBE32 L ++ [flags]).take 4) - 5) with
    | .error e => Except.error e
    | .ok (p2, s2) => Except.ok ((packBE32 L ++ [flags]) ++ p2, s2)) = _
  rw [htake4, hunpack, PackageIO.recvExact, if_pos h2, htakeP, hdropP]
  show Except.ok ((packBE32 L ++ [flags]) ++ payload, rest) = _
  simp

theorem step_length (maxConn handleMax : Nat) (s t : List ConnPhase)
    (h : Step maxConn handleMax s t) :
    (t.length = s.length + 1 ∧ s.length < maxConn) ∨ t.length = s.length ∨
      t.length + 1 = s.length := by
  cases h with
  | accept s hlt => exact Or.inl ⟨rfl, hlt⟩
  | startHandle pre post hcount => right; left; simp
  | finishHandle pre post => right; left; simp
  | close pre post =>
      right; right
      simp only [List.length_append, List.length_cons]
      omega

theorem step_reading_cons (maxConn handleMax : Nat) (s : List ConnPhase)
    (h : Step maxConn handleMax s (ConnPhase.reading :: s)) : s.length < maxConn := by
  rcases step_length maxConn handleMax s (ConnPhase.reading :: s) h with ⟨_, hb⟩ | he | he
  · exact hb
  · simp at he
  · simp at he
    omega

theorem countHandling_append (l1 l2 : List ConnPhase) :
    countHandling (l1 ++ l2) = countHandling l1 + countHandling l2 := by
  simp [countHandling]

theorem countHandling_cons_reading (l : List ConnPhase) :
    countHandling (ConnPhase.reading :: l) = countHandling l := by
  simp [countHandling]

theorem countHandling_cons_handling (l : List ConnPhase) :
    countHandling (ConnPhase.handling :: l) = countHandling l + 1 := by
  simp [countHandling, List.countP_cons]

theorem countHandling_le_length (l : List ConnPhase) : countHandling l ≤ l.length :=
  List.countP_le_length _

theorem reachable_invariant (maxConn handleMax : Nat) (s : List ConnPhase)
    (h : Reachable maxConn handleMax s) :
    countHandling s ≤ handleMax ∧ countHandling s ≤ s.length ∧ s.length ≤ maxConn := by
  induction h with
  | init => simp [countHandling]
  | step hr hst ih =>
      obtain ⟨ih1, ih2, ih3⟩ := ih
      cases hst with
      | accept s hlt =>
          refine ⟨?_, ?_, ?_⟩
          · rw [countHandling_cons_reading]
            exact ih1
          · rw [countHandling_cons_reading]
            simp only [List.length_cons]
            omega
          · simp only [List.length_cons]
            omega
      | startHandle pre post hcount =>
          have hle1 := countHandling_le_length pre
          have hle2 := countHandling_le_length post
          rw [countHandling_append, countHandling_cons_reading] at ih1 ih2 hcount
          simp only [List.length_append, List.length_cons] at ih2 ih3
          refine ⟨?_, ?_, ?_⟩
          · rw [countHandling_append, countHandling_cons_handling]
            omega
          · rw [countHandling_append, countHandling_cons_handling]
            simp only [List.length_append, List.length_cons]
            omega
          · simp only [List.length_append, List.length_cons]
            omega
      | finishHandle pre post =>
          rw [countHandling_append, countHandling_cons_handling] at ih1 ih2
          simp only [List.length_append, List.length_cons] at ih2 ih3
          refine ⟨?_, ?_, ?_⟩
          · rw [countHandling_append, countHandling_cons_reading]
            omega
          · rw [countHandling_append, countHandling_cons_reading]
            simp only [List.length_append, List.length_cons]
            omega
          · simp only [List.length_append, List.length_cons]
            omega
      | close pre post =>
          have hle1 := countHandling_le_length pre
          have hle2 := countHandling_le_length post
          rw [countHandling_append, countHandling_cons_reading] at ih1 ih2
          simp only [List.length_append, List.length_cons] at ih2 ih3
          refine ⟨?_, ?_, ?_⟩
          · rw [countHandling_append]
            omega
          · rw [countHandling_append]
            simp only [List.length_append]
            omega
          · simp only [List.length_append]
            omega

/-! ### Concrete fixtures used by the witnesses -/

def envW : PkgEnv :=
  { uuid4 := strCodes "fresh-uuid-0000", protocol_version := strCodes "1.0",
    protocol_id := 1 }

def pW : Package :=
  { transaction := strCodes "echo", content := [0, 255, 7, 66],
    uuid := some (strCodes "req-uuid-1"), from_addr := none,
    protocol_version := some (strCodes "1.0"), protocol_id := some 3,
    passkey := some (strCodes "sek") }

def dataW : List Nat := (pW.to_bytes false false).toOption.getD []

def cfgW : Config :=
  { host := strCodes "127.0.0.1", port := 9000, connect_passkey := none }

def regNone : Registry := fun _ => none

def regEcho : Registry :=
  fun t => if t = strCodes "echo" then some (fun r => .ok r.package.content) else none

def addrW : List Nat × Nat := (strCodes "10.0.0.2", 50000)

def emptyUuidPkg : Package :=
  { transaction := strCodes "echo", content := [], uuid := some [],
    from_addr := none, protocol_version := some (strCodes "1.0"),
    protocol_id := some 1, passkey := none }

def reqOther : Package :=
  { transaction := strCodes "echo", content := [], uuid := some (strCodes "different"),
    from_addr := none, protocol_version := some (strCodes "1.0"), protocol_id := some 1,
    passkey := none }

/-! ### The claims -/

/-- C1: for every well-formed Package p (content an arbitrary byte string,
string metadata fields holding strings, the post-init invariant holding) and
any flag choices, a successful Package.to_bytes followed by
Package.from_bytes returns p itself, byte-for-byte on content and equal on
every metadata field (record equality), for any constructor environment. -/
theorem package_codec_roundtrip (env : PkgEnv) (p : Package) (hp : p.wf)
    (enc resp : Bool) (data : List Nat) (h : p.to_bytes enc resp = .ok data) :
    Package.from_bytes env data = .ok p :=
  from_bytes_to_bytes env p hp enc resp data h

set_option maxRecDepth 100000 in
/-- C1 witness: the round trip evaluated at a concrete package with binary
content and a passkey. -/
theorem package_codec_roundtrip_witness :
    Package.wf pW ∧ Package.from_bytes envW dataW = .ok pW :=
  ⟨by decide, package_codec_roundtrip envW pW (by decide) false false dataW (by rfl)⟩

/-- C2: Server._validate_passkey can never return True: content is bytes,
bytes has no .get attribute, so the passkey comparison raises
AttributeError and the handler returns False for every configured key and
every received package — including a well-formed _auth package carrying the
correct passkey, which the claim says must be accepted. -/
theorem validate_passkey_never_accepts (key : List Nat) (package : Option Package) :
    validatePasskey key package = false := by
  cases package with
  | none => rfl
  | some p => simp [validatePasskey, bytesDotGet]

/-- C3: DHEncryption._unpad does not raise on an input whose final byte is
0: padding_length = 0 passes both checks and data[:-0] is data[:0], so the
call returns empty bytes instead of raising the error the claim (and the
spec's PKCS#7 validation) requires. -/
theorem unpad_trailing_zero_returns_empty : DHEncryption.unpad [65, 0] = .ok [] := rfl

/-- C7: PKCS#7 padding round-trips: _unpad (_pad b) = b for every byte
string, and _pad appends between 1 and 16 bytes, making the output length a
positive multiple of 16. -/
theorem pad_unpad_roundtrip (b : List Nat) :
    DHEncryption.unpad (DHEncryption.pad b) = .ok b ∧
    (DHEncryption.pad b).length = b.length + (16 - b.length % 16) ∧
    1 ≤ 16 - b.length % 16 ∧ 16 - b.length % 16 ≤ 16 ∧
    (DHEncryption.pad b).length % 16 = 0 ∧ 0 < (DHEncryption.pad b).length := by
  have hmod : b.length % 16 < 16 := Nat.mod_lt _ (by norm_num)
  have hn1 : 1 ≤ 16 - b.length % 16 := by omega
  have hn16 : 16 - b.length % 16 ≤ 16 := by omega
  have hlen : (DHEncryption.pad b).length = b.length + (16 - b.length % 16) := by
    simp [DHEncryption.pad]
  have hlast : (DHEncryption.pad b).getLast?.getD 0 = 16 - b.length % 16 := by
    rw [DHEncryption.pad,
      List.getLast?_append_of_ne_nil _ (by simp [List.replicate]; omega),
      getLast?_replicate _ _ hn1]
    rfl
  have hargs : ¬∃ i < 16 - b.length % 16,
      (DHEncryption.pad b).getD ((DHEncryption.pad b).length - (i + 1)) 0 ≠
        16 - b.length % 16 := by
    rintro ⟨i, hi, hne⟩
    apply hne
    rw [hlen]
    have hidx : b.length + (16 - b.length % 16) - (i + 1) =
        b.length + (16 - b.length % 16 - (i + 1)) := by omega
    rw [DHEncryption.pad, hidx,
      List.getD_append_right _ _ _ _ (by omega),
      show b.length + (16 - b.length % 16 - (i + 1)) - b.length =
        16 - b.length % 16 - (i + 1) from by omega,
      replicate_getD _ _ _ (by omega)]
  have hslice : pySliceToNeg (DHEncryption.pad b) (16 - b.length % 16) = b := by
    rw [pySliceToNeg, if_neg (by omega), hlen, DHEncryption.pad,
      show b.length + (16 - b.length % 16) - (16 - b.length % 16) = b.length from by omega,
      List.take_left]
  refine ⟨?_, hlen, hn1, hn16, by omega, by omega⟩
  rw [DHEncryption.unpad, if_neg (by omega)]
  show (if (DHEncryption.pad b).getLast?.getD 0 > 16 ∨
      (DHEncryption.pad b).getLast?.getD 0 > (DHEncryption.pad b).length then _
    else _) = _
  rw [hlast]
  rw [if_neg (by omega)]
  rw [if_neg hargs]
  rw [hslice]

/-- C10: Package.get_flags raises ValueError on inputs shorter than 5 bytes
and returns byte index 4 otherwise; is_encrypted, has_passkey and
is_response test bits 0, 1 and 2 of that byte and propagate the short-input
error. -/
theorem get_flags_spec (data : List Nat) :
    (data.length < 5 →
      Package.get_flags data = .error "Data too short for header" ∧
      Package.is_encrypted data = .error "Data too short for header" ∧
      Package.has_passkey data = .error "Data too short for header" ∧
      Package.is_response data = .error "Data too short for header") ∧
    (5 ≤ data.length →
      Package.get_flags data = .ok (data.getD 4 0) ∧
      Package.is_encrypted data = .ok ((data.getD 4 0).testBit 0) ∧
      Package.has_passkey data = .ok ((data.getD 4 0).testBit 1) ∧
      Package.is_response data = .ok ((data.getD 4 0).testBit 2)) := by
  constructor
  · intro h
    have hg : Package.get_flags data = .error "Data too short for header" := by
      rw [Package.get_flags, if_pos h]
    exact ⟨hg, by simp [Package.is_encrypted, hg, Except.map],
      by simp [Package.has_passkey, hg, Except.map],
      by simp [Package.is_response, hg, Except.map]⟩
  · intro h
    have hg : Package.get_flags data = .ok (data.getD 4 0) := by
      rw [Package.get_flags, if_neg (by omega)]
    refine ⟨hg, ?_, ?_, ?_⟩
    · rw [Package.is_encrypted, hg]
      simp only [Except.map]
      rw [show FLAG_ENCRYPTED = 2 ^ 0 from rfl, and_flag_testBit]
    · rw [Package.has_passkey, hg]
      simp only [Except.map]
      rw [show FLAG_PASSKEY = 2 ^ 1 from rfl, and_flag_testBit]
    · rw [Package.is_response, hg]
      simp only [Except.map]
      rw [show FLAG_RESPONSE = 2 ^ 2 from rfl, and_flag_testBit]

/-- C10 witness: both branches at concrete inputs: a 2-byte input errors, a
5-byte input with flags byte 5 reports flags and bits. -/
theorem get_flags_spec_witness :
    Package.get_flags [0, 0, 0, 9, 5] = .ok 5 ∧
    Package.get_flags [1, 2] = .error "Data too short for header" :=
  ⟨((get_flags_spec [0, 0, 0, 9, 5]).2 (by decide)).1,
   ((get_flags_spec [1, 2]).1 (by decide)).1⟩

/-- C4 counterexample: a request whose uuid is the empty string. Its
dispatch fails (no handler is registered), yet the error package does not
echo the request uuid: create_error_package treats the falsy empty string
like an absent uuid and mints a fresh one. -/
theorem error_package_uuid_counterexample :
    RequestHandler.handle regNone
      { package := emptyUuidPkg, clientIp := addrW.1, clientPort := addrW.2 } =
      .error (strCodes "Unknown transaction: echo") ∧
    (processRequest envW cfgW regNone emptyUuidPkg addrW).uuid ≠ emptyUuidPkg.uuid := by
  constructor
  · rfl
  · decide

/-- C4 (amended): for every request whose dispatch fails and whose uuid is
truthy (present and non-empty — a fresh uuid is minted otherwise), the
server sends an error package with the request uuid and content the UTF-8
JSON encoding of the error dict, and the serving loop continues with the
subsequent frames of the same connection. -/
theorem handler_error_reply_keeps_connection (env : PkgEnv) (cfg : Config)
    (reg : Registry) (package : Package) (addr : List Nat × Nat)
    (rest : List (Option Package)) (e : List Nat)
    (hfail : RequestHandler.handle reg
      { package := package, clientIp := addr.1, clientPort := addr.2 } = .error e)
    (htruthy : truthyOptStr package.uuid = true) :
    (processRequest env cfg reg package addr).uuid = package.uuid ∧
    (processRequest env cfg reg package addr).content =
      utf8Encode (jsonDumps [(strCodes "error", .jstr e)]) ∧
    serveLoop env cfg reg addr (some package :: rest) =
      processRequest env cfg reg package addr :: serveLoop env cfg reg addr rest := by
  match hu : package.uuid with
  | none =>
      rw [hu] at htruthy
      simp [truthyOptStr] at htruthy
  | some u =>
      rw [hu] at htruthy
      refine ⟨?_, ?_, rfl⟩
      · simp [processRequest, hfail, create_error_package, pkgNew, postInit, hu, htruthy]
      · simp [processRequest, hfail, create_error_package, pkgNew, postInit]

/-- C4 witness: the amended claim at a concrete failing request with a
non-empty uuid. -/
theorem handler_error_reply_keeps_connection_witness :
    (processRequest envW cfgW regNone pW addrW).uuid = pW.uuid ∧
    (processRequest envW cfgW regNone pW addrW).content =
      utf8Encode (jsonDumps [(strCodes "error",
        .jstr (strCodes "Unknown transaction: echo"))]) ∧
    serveLoop envW cfgW regNone addrW (some pW :: [none]) =
      processRequest envW cfgW regNone pW addrW ::
        serveLoop envW cfgW regNone addrW [none] := by
  have h := handler_error_reply_keeps_connection envW cfgW regNone pW addrW [none]
    (strCodes "Unknown transaction: echo") (by rfl) (by decide)
  exact h

/-- C5: for every request whose handler returns bytes, the response package
carries the request uuid, the request transaction, the configured host:port
as from_addr and exactly the returned bytes as content; and on every
successful send of that package the outgoing frame has the FLAG_RESPONSE
bit (bit 2) set in its flags byte, encrypted or not. -/
theorem response_package_fields (env : PkgEnv) (cfg : Config) (reg : Registry)
    (package : Package) (addr : List Nat × Nat) (b : List Nat)
    (hok : RequestHandler.handle reg
      { package := package, clientIp := addr.1, clientPort := addr.2 } = .ok b)
    (hus : package.uuid.isSome = true) :
    (processRequest env cfg reg package addr).uuid = package.uuid ∧
    (processRequest env cfg reg package addr).transaction = package.transaction ∧
    (processRequest env cfg reg package addr).from_addr = some (serverAddr cfg) ∧
    (processRequest env cfg reg package addr).content = b ∧
    (∀ encryption data,
      sendPackage (processRequest env cfg reg package addr) encryption = .ok data →
      data.getD 4 0 &&& FLAG_RESPONSE ≠ 0) := by
  obtain ⟨u, hu⟩ := Option.isSome_iff_exists.mp hus
  have hpr : processRequest env cfg reg package addr =
      pkgNew env package.transaction b package.uuid (some (serverAddr cfg)) := by
    simp [processRequest, hok]
  refine ⟨?_, ?_, ?_, ?_, ?_⟩
  · rw [hpr]; simp [pkgNew, postInit, hu]
  · rw [hpr]; simp [pkgNew, postInit]
  · rw [hpr]; simp [pkgNew, postInit]
  · rw [hpr]; simp [pkgNew, postInit]
  · intro encryption data hsend
    exact sendPackage_flags _ encryption data hsend

/-- C5 witness: the response for a concrete echo handler, unencrypted. -/
theorem response_package_fields_witness :
    (processRequest envW cfgW regEcho pW addrW).uuid = pW.uuid ∧
    (processRequest envW cfgW regEcho pW addrW).content = pW.content := by
  have h := response_package_fields envW cfgW regEcho pW addrW pW.content
    (by rfl) (by decide)
  exact ⟨h.1, h.2.2.2.1⟩

/-- C6 counterexample: a frame whose header length field is 16 MiB + 6,
well above 16 MiB.  PackageIO.receive reads and returns the whole frame
instead of rejecting it with a protocol error: no maximum frame length
exists in the code. -/
theorem receive_oversize_frame_counterexample :
    PackageIO.receive (packBE32 (16 * 2 ^ 20 + 6) ++
      (0 :: List.replicate (16 * 2 ^ 20 + 1) 97)) =
    .ok (packBE32 (16 * 2 ^ 20 + 6) ++ (0 :: List.replicate (16 * 2 ^ 20 + 1) 97), []) := by
  have h := receive_frame (16 * 2 ^ 20 + 6) 0 (List.replicate (16 * 2 ^ 20 + 1) 97) []
    (by rw [List.length_replicate]; norm_num) (by norm_num) (by norm_num)
  rw [List.append_nil] at h
  exact h

/-- C6 (amended): the frame readers enforce no maximum frame length: for
every header length field L with 5 ≤ L < 2^32 — in particular every L above
16 MiB — and a stream holding the L - 5 payload bytes, the reader returns
the complete frame and the remaining stream, never a protocol error. -/
theorem receive_no_length_cap (L flags : Nat) (payload rest : List Nat)
    (hL : payload.length = L - 5) (h5 : 5 ≤ L) (h32 : L < 2 ^ 32) :
    PackageIO.receive (packBE32 L ++ (flags :: (payload ++ rest))) =
      .ok (packBE32 L ++ (flags :: payload), rest) :=
  receive_frame L flags payload rest hL h5 h32

/-- C6 witness: the amended claim instantiated at the 16 MiB + 6 frame. -/
theorem receive_no_length_cap_witness :
    PackageIO.receive (packBE32 (16 * 2 ^ 20 + 6) ++
      (0 :: (List.replicate (16 * 2 ^ 20 + 1) 97 ++ []))) =
    .ok (packBE32 (16 * 2 ^ 20 + 6) ++ (0 :: List.replicate (16 * 2 ^ 20 + 1) 97), []) :=
  receive_no_length_cap (16 * 2 ^ 20 + 6) 0 (List.replicate (16 * 2 ^ 20 + 1) 97) []
    (by rw [List.length_replicate]; norm_num) (by norm_num) (by norm_num)

/-- C8: Client.ask returns the received response exactly when its uuid
equals the request uuid, and raises the correlation error (the ValueError
"Response UUID mismatch") instead of returning whenever the uuids differ. -/
theorem ask_uuid_correlation (env : PkgEnv) (package : Package) (stream : List Nat)
    (response : Package) (hrecv : Client.receivePkg env stream = .ok response) :
    (response.uuid = package.uuid → Client.ask env package stream = .ok response) ∧
    (response.uuid ≠ package.uuid →
      Client.ask env package stream = .error "Response UUID mismatch") := by
  constructor
  · intro hc
    simp [Client.ask, hrecv, hc]
  · intro hc
    simp [Client.ask, hrecv, hc]

set_option maxRecDepth 100000 in
/-- C8 witness: a concrete wire frame parsing to a response whose uuid
differs from the request's; ask raises instead of returning. -/
theorem ask_uuid_correlation_witness :
    Client.ask envW reqOther dataW = .error "Response UUID mismatch" :=
  (ask_uuid_correlation envW reqOther dataW pW (by rfl)).2 (by decide)

/-- C9 counterexample: the claimed chained invariant active_handlers ≤
handle_connections ≤ active_connections ≤ max_connections fails at the
reachable idle state with max_connections = 2 and handle_connections = 1
(a valid configuration): no connections are active, so the middle
inequality 1 ≤ 0 is false. -/
theorem admission_chain_counterexample :
    Reachable 2 1 [] ∧
    ¬(countHandling [] ≤ 1 ∧ 1 ≤ ([] : List ConnPhase).length ∧
      ([] : List ConnPhase).length ≤ 2) :=
  ⟨Reachable.init, by decide⟩

/-- C9 (amended): in every reachable state of the admission discipline,
active_handlers ≤ handle_connections, active_handlers ≤ active_connections
and active_connections ≤ max_connections (the claimed chain holds except
its middle comparison of the handle_connections cap against the current
connection count); and at the connection cap the accept transition is
disabled until a permit is released. -/
theorem admission_invariant (maxConn handleMax : Nat) (s : List ConnPhase)
    (h : Reachable maxConn handleMax s) :
    countHandling s ≤ handleMax ∧ countHandling s ≤ s.length ∧ s.length ≤ maxConn ∧
    (s.length = maxConn → ¬Step maxConn handleMax s (ConnPhase.reading :: s)) := by
  obtain ⟨h1, h2, h3⟩ := reachable_invariant maxConn handleMax s h
  refine ⟨h1, h2, h3, ?_⟩
  intro hful hstep
  have := step_reading_cons maxConn handleMax s hstep
  omega

/-- C9 witness: the invariant at a concrete reachable state with one
accepted connection under caps 3 and 2. -/
theorem admission_invariant_witness :
    countHandling [ConnPhase.reading] ≤ 2 ∧
    countHandling [ConnPhase.reading] ≤ [ConnPhase.reading].length ∧
    [ConnPhase.reading].length ≤ 3 ∧
    ([ConnPhase.reading].length = 3 →
      ¬Step 3 2 [ConnPhase.reading] (ConnPhase.reading :: [ConnPhase.reading])) :=
  admission_invariant 3 2 [ConnPhase.reading]
    (Reachable.step Reachable.init (Step.accept [] (by decide)))

end HTCP
